import Mathlib

/-!
Verification of the game-allocation algorithm in
`convergence_games/algorithm/game_allocator.py`.

The Python code is shallowly embedded: the mutable
`current_allocations` dict (table allocation id -> list of player ids)
becomes a total function `Alloc := Nat → List Nat` (the driver only ever
queries keys that belong to the time slot, where the dict and the total
function agree, with unknown keys reading as the empty list);
`random.sample(l, len(l))` calls are modelled by an oracle supplying one
permutation per call site occurrence, threaded through a call counter;
Python exceptions (`KeyError` from dict lookups, the `ValueError`s raised
by the trial driver, the `assert`) become an `Except PyErr` result.
Machine integers are `Nat`/`Int` (`Int` where the Python value can go
negative, e.g. capacity deficits).
-/

namespace ConvergenceGames

/-- Capacity data of the game behind a table allocation:
`game.minimum_players`, `game.optimal_players` (the "sweet spot") and
`game.maximum_players` as read through `table_allocation_lookup[ta_id].game`. -/
structure GameInfo where
  minimum_players : Nat
  optimal_players : Nat
  maximum_players : Nat
deriving DecidableEq, Repr

instance : Inhabited GameInfo := ⟨⟨0, 0, 0⟩⟩

/-- One `SessionPreference` row: the table allocation it concerns and its
ordinal preference score. -/
structure SessionPreference where
  table_allocation_id : Nat
  preference : Nat
deriving DecidableEq, Repr

/-- The allocation state: Python's `current_allocations` dict mapping each
table allocation id to the ordered list of player ids seated there,
modelled as a total function (keys outside the slot read as `[]`). -/
def Alloc : Type := Nat → List Nat

/-- `current_allocations[t].append(p)` -/
def appendAt (alloc : Alloc) (t : Nat) (p : Nat) : Alloc :=
  fun t' => if t' = t then alloc t ++ [p] else alloc t'

/-- `current_allocations[t].remove(p)` (Python removes the first occurrence). -/
def removeAt (alloc : Alloc) (t : Nat) (p : Nat) : Alloc :=
  fun t' => if t' = t then (alloc t).erase p else alloc t'

/-- The random source: `random.sample(l, len(l))` returns a permutation of
`l`.  Each call site occurrence consumes one tick of a call counter `k`;
the oracle gives the permutation used at tick `k`.  Separate fields cover
the three element types Python shuffles (`SessionPreference` rows inside
`_order_preferences_for_player`, table-allocation/player ids, and the
`(table, player)` pairs of `try_make_up_numbers`). -/
structure Oracle where
  permSP : Nat → List SessionPreference → List SessionPreference
  permNat : Nat → List Nat → List Nat
  permPair : Nat → List (Nat × Nat) → List (Nat × Nat)

/-- A well-formed oracle only ever permutes: every sample is a permutation
of its input, as `random.sample(l, len(l))` guarantees. -/
def Oracle.WF (o : Oracle) : Prop :=
  (∀ k l, (o.permSP k l).Perm l) ∧ (∀ k l, (o.permNat k l).Perm l) ∧
    (∀ k l, (o.permPair k l).Perm l)

/-- The identity oracle (each sample returns its input unchanged). -/
def idOracle : Oracle :=
  ⟨fun _ l => l, fun _ l => l, fun _ l => l⟩

/-- Python exceptions that can escape the embedded functions. -/
inductive PyErr where
  /-- a `KeyError` from a `loss_by_player_and_table` lookup -/
  | keyError
  /-- `ValueError("Failed to allocate all players")`, tagged with the
  offending player and trial number printed just before the raise -/
  | failedToAllocatePlayer (player : Nat) (trial : Nat)
  /-- `ValueError("Failed to make up numbers")`, tagged with the offending
  table and trial number printed just before the raise -/
  | failedToMakeUpNumbers (table : Nat) (trial : Nat)
  /-- the `assert not tables_with_too_many_players` failing -/
  | assertionError
deriving DecidableEq, Repr

/-- Sorting by a numeric key ascending is total (used to apply the sorting
lemmas to Python's `sorted(..., key=...)`). -/
instance (f : α → Int) : IsTotal α (fun a b => f a ≤ f b) :=
  ⟨fun a b => le_total (f a) (f b)⟩

instance (f : α → Int) : IsTrans α (fun a b => f a ≤ f b) :=
  ⟨fun _ _ _ h1 h2 => le_trans h1 h2⟩

/-- Sorting by a numeric key descending (`reverse=True`) is total. -/
instance (f : α → Nat) : IsTotal α (fun a b => f b ≤ f a) :=
  ⟨fun a b => (le_total (f a) (f b)).symm⟩

instance (f : α → Nat) : IsTrans α (fun a b => f b ≤ f a) :=
  ⟨fun _ _ _ h1 h2 => le_trans h2 h1⟩

/-- Helper for `groupRuns`: `x` is the first element of the current run and
`acc` holds the rest of the current run, accumulated in reverse. -/
def groupRunsAux (key : α → Nat) : α → List α → List α → List (List α)
  | x, acc, [] => [x :: acc.reverse]
  | x, acc, y :: ys =>
    if key y = key x then groupRunsAux key x (y :: acc) ys
    else (x :: acc.reverse) :: groupRunsAux key y [] ys

/-- `itertools.groupby`: split a list into maximal runs of adjacent
elements with equal key. -/
def groupRuns (key : α → Nat) : List α → List (List α)
  | [] => []
  | x :: xs => groupRunsAux key x [] xs

/-- The threaded shuffling of each preference group:
`random.sample(ll := list(v), len(ll))` applied to every group produced by
`groupby`, consuming one oracle tick per group. -/
def shuffleGroups (o : Oracle) : Nat → List (List SessionPreference) →
    List (List SessionPreference) × Nat
  | k, [] => ([], k)
  | k, g :: gs =>
    let rest := shuffleGroups o (k + 1) gs
    (o.permSP k g :: rest.1, rest.2)

/-- `GameAllocator._order_preferences_for_player`: sort the preference rows
by score descending (Python's stable `sorted(..., reverse=True)`), group
adjacent rows of equal score (`groupby`), shuffle within each group, and
return the per-tier lists of table allocation ids (the dict
`{0: tier0, 1: tier1, ...}` is the positional list).  Also returns the
advanced oracle counter. -/
def order_preferences_for_player (o : Oracle) (k : Nat)
    (preferences : List SessionPreference) : List (List Nat) × Nat :=
  let sortedPrefs := List.insertionSort
    (fun a b : SessionPreference => b.preference ≤ a.preference) preferences
  let groups := groupRuns (fun sp => sp.preference) sortedPrefs
  let shuffled := shuffleGroups o k groups
  (shuffled.1.map (fun g => g.map (fun sp => sp.table_allocation_id)), shuffled.2)

/-- The dict comprehension
`{ta_id: ta_loss for ta_loss, ta_ids in ordered_preferences.items() for ta_id in ta_ids}`
building `loss_by_player_and_table[player]` from the player's tiers: a
table found in several tiers gets the last (largest) tier index, because
later dict assignments overwrite earlier ones. -/
def lossMapOf : List (List Nat) → Nat → Option Nat
  | [], _ => none
  | tas :: rest, t =>
    match lossMapOf rest t with
    | some i => some (i + 1)
    | none => if t ∈ tas then some 0 else none

/-- The sort key of the polite pass:
`table_allocation_lookup[ta_id].game.maximum_players - len(current_allocations[ta_id])`
(a Python int, so `Int` here). -/
def missingPlayersKey (lookup : Nat → GameInfo) (alloc : Alloc) (t : Nat) : Int :=
  ((lookup t).maximum_players : Int) - ((alloc t).length : Int)

/-- `ta_ids_sorted_by_missing_players`: the tier sorted ascending (Python's
default `sorted`) and stably by remaining capacity `max - current load`. -/
def politeOrder (lookup : Nat → GameInfo) (alloc : Alloc) (tier : List Nat) :
    List Nat :=
  List.insertionSort
    (fun a b => missingPlayersKey lookup alloc a ≤ missingPlayersKey lookup alloc b) tier

/-- The repeated guard `len(current_allocations[ta_id]) < ...maximum_players`:
find the first table in the given order with room for one more player. -/
def firstTableWithRoom (lookup : Nat → GameInfo) (alloc : Alloc) :
    List Nat → Option Nat
  | [] => none
  | t :: ts =>
    if (alloc t).length < (lookup t).maximum_players then some t
    else firstTableWithRoom lookup alloc ts

/-- The inner loop of the bump pass over the incumbents
(`for other_player_id in other_players_at_table`) of table `t`: find the
first incumbent `h` whose loss at `t` is at least `ourLoss`
(`if other_ta_loss >= our_ta_loss`) that has a free alternative `t2` in
its own tier at that same loss, scanned in a freshly sampled order.  A
missing `loss_by_player_and_table[other_player_id][t]` entry is a
`KeyError`.  Returns the optional `(h, t2)` move and the advanced
counter. -/
def bumpScanPlayers (o : Oracle) (lookup : Nat → GameInfo)
    (orderedPrefs : Nat → List (List Nat)) (alloc : Alloc) (t : Nat)
    (ourLoss : Nat) : Nat → List Nat → Except PyErr (Option (Nat × Nat) × Nat)
  | k, [] => .ok (none, k)
  | k, h :: hs =>
    match lossMapOf (orderedPrefs h) t with
    | none => .error .keyError
    | some lh =>
      if ourLoss ≤ lh then
        match firstTableWithRoom lookup alloc
            (o.permNat k ((orderedPrefs h).getD lh [])) with
        | some t2 => .ok (some (h, t2), k + 1)
        | none => bumpScanPlayers o lookup orderedPrefs alloc t ourLoss (k + 1) hs
      else bumpScanPlayers o lookup orderedPrefs alloc t ourLoss k hs

/-- The outer loop of the bump pass
(`for ta_id in random.sample(table_allocation_ids, ...)`): scan the
already-shuffled tier; at each table run `bumpScanPlayers` over its
current occupants.  Returns the first `(t, h, t2)` found: bump incumbent
`h` from `t` to `t2` and seat the newcomer at `t`. -/
def bumpScanTables (o : Oracle) (lookup : Nat → GameInfo)
    (orderedPrefs : Nat → List (List Nat)) (alloc : Alloc) (ourLoss : Nat) :
    Nat → List Nat → Except PyErr (Option (Nat × Nat × Nat) × Nat)
  | k, [] => .ok (none, k)
  | k, t :: ts =>
    match bumpScanPlayers o lookup orderedPrefs alloc t ourLoss k (alloc t) with
    | .error e => .error e
    | .ok (some (h, t2), k') => .ok (some (t, h, t2), k')
    | .ok (none, k') => bumpScanTables o lookup orderedPrefs alloc ourLoss k' ts

/-- The tier walk of `initial_allocate`
(`for our_ta_loss, table_allocation_ids in our_preferences.items()`), with
`ourLoss` the index of the tier at the head of the remaining tier list.
Each tier first gets the polite pass over `ta_ids_sorted_by_missing_players`
and then, if every preferred table is full, the bump pass. -/
def initialAllocateAux (o : Oracle) (lookup : Nat → GameInfo)
    (orderedPrefs : Nat → List (List Nat)) (player : Nat) :
    Nat → Nat → Alloc → List (List Nat) → Except PyErr (Alloc × Bool × Nat)
  | _, k, alloc, [] => .ok (alloc, false, k)
  | ourLoss, k, alloc, tier :: rest =>
    match firstTableWithRoom lookup alloc (politeOrder lookup alloc tier) with
    | some t => .ok (appendAt alloc t player, true, k)
    | none =>
      match bumpScanTables o lookup orderedPrefs alloc ourLoss (k + 1)
          (o.permNat k tier) with
      | .error e => .error e
      | .ok (some (t, h, t2), k') =>
        .ok (appendAt (appendAt (removeAt alloc t h) t2 h) t player, true, k')
      | .ok (none, k') =>
        initialAllocateAux o lookup orderedPrefs player (ourLoss + 1) k' alloc rest

/-- `initial_allocate(current_allocations, player_id)`: walk the player's
tiers from best (index 0) upward, politely seating at the first preferred
table with room (emptiness-sorted), otherwise bumping an incumbent of
equal-or-worse loss sideways within its own loss tier.  Returns the new
allocation, the success flag and the advanced oracle counter. -/
def initial_allocate (o : Oracle) (lookup : Nat → GameInfo)
    (orderedPrefs : Nat → List (List Nat)) (alloc : Alloc) (player : Nat)
    (k : Nat) : Except PyErr (Alloc × Bool × Nat) :=
  initialAllocateAux o lookup orderedPrefs player 0 k alloc (orderedPrefs player)

/-- The candidate scan of `try_make_up_numbers` restricted to one donor
table `d` (`for other_player_id in current_allocations[other_ta_id]`).
Both `loss_by_player_and_table[other_player_id][other_ta_id]` and
`loss_by_player_and_table[other_player_id][ta_id]` are dict lookups that
raise `KeyError` when missing; a player is kept when
`not (other_ta_loss > loss[...][ta_id])` and
`ta_id in ordered_preferences_by_player[other_player_id][other_ta_loss]`. -/
def scanPlayersAtDonor (orderedPrefs : Nat → List (List Nat)) (ta d : Nat) :
    List Nat → Except PyErr (List (Nat × Nat))
  | [] => .ok []
  | p :: ps =>
    match lossMapOf (orderedPrefs p) d with
    | none => .error .keyError
    | some ld =>
      match lossMapOf (orderedPrefs p) ta with
      | none => .error .keyError
      | some lt =>
        if lt < ld then scanPlayersAtDonor orderedPrefs ta d ps
        else if ta ∈ (orderedPrefs p).getD ld [] then
          match scanPlayersAtDonor orderedPrefs ta d ps with
          | .error e => .error e
          | .ok rest => .ok ((d, p) :: rest)
        else scanPlayersAtDonor orderedPrefs ta d ps

/-- The full candidate scan of `try_make_up_numbers`
(`for other_ta_id in tables_with_more_than_sweet_spot`), building
`possible_players_to_move` in donor order, skipping the target table
itself. -/
def scanCandidates (orderedPrefs : Nat → List (List Nat)) (alloc : Alloc)
    (ta : Nat) : List Nat → Except PyErr (List (Nat × Nat))
  | [] => .ok []
  | d :: ds =>
    if d = ta then scanCandidates orderedPrefs alloc ta ds
    else
      match scanPlayersAtDonor orderedPrefs ta d (alloc d) with
      | .error e => .error e
      | .ok here =>
        match scanCandidates orderedPrefs alloc ta ds with
        | .error e => .error e
        | .ok rest => .ok (here ++ rest)

/-- The greedy selection loop of `try_make_up_numbers` over the shuffled
candidates: skip a `(d, p)` move when it would leave donor `d` at or below
its sweet spot counting the already selected departures from `d`, and stop
as soon as `sweetspot_deficit` moves are selected. -/
def selectMoves (lookup : Nat → GameInfo) (alloc : Alloc)
    (sweetspotDeficit : Int) :
    List (Nat × Nat) → List (Nat × Nat) → List (Nat × Nat)
  | selected, [] => selected
  | selected, (d, p) :: rest =>
    let postMove : Int := ((alloc d).length : Int) -
      ((selected.filter (fun dp => dp.1 = d)).length : Int)
    if postMove ≤ ((lookup d).optimal_players : Int) then
      selectMoves lookup alloc sweetspotDeficit selected rest
    else
      let selected' := selected ++ [(d, p)]
      if (selected'.length : Int) = sweetspotDeficit then selected'
      else selectMoves lookup alloc sweetspotDeficit selected' rest

/-- `try_make_up_numbers(current_allocations, ta_id, tables_with_more_than_sweet_spot)`:
fill the under-minimum table `ta` from over-sweet-spot donors.  Fails (returns
`False`) when fewer candidates than `minimum_deficit` exist or survive
selection; otherwise applies the selected moves (`remove` from the donor,
`append` to `ta`) in order. -/
def try_make_up_numbers (o : Oracle) (lookup : Nat → GameInfo)
    (orderedPrefs : Nat → List (List Nat)) (alloc : Alloc) (ta : Nat)
    (donors : List Nat) (k : Nat) : Except PyErr (Alloc × Bool × Nat) :=
  let minimumDeficit : Int :=
    ((lookup ta).minimum_players : Int) - ((alloc ta).length : Int)
  let sweetspotDeficit : Int :=
    ((lookup ta).optimal_players : Int) - ((alloc ta).length : Int)
  match scanCandidates orderedPrefs alloc ta donors with
  | .error e => .error e
  | .ok possible =>
    if (possible.length : Int) < minimumDeficit then .ok (alloc, false, k)
    else
      let selected :=
        selectMoves lookup alloc sweetspotDeficit [] (o.permPair k possible)
      if (selected.length : Int) < minimumDeficit then .ok (alloc, false, k + 1)
      else
        let alloc' := selected.foldl
          (fun a dp => appendAt (removeAt a dp.1 dp.2) ta dp.2) alloc
        .ok (alloc', true, k + 1)

/-- `evaluate_total_loss`: sum `loss_by_player_and_table[player_id][ta_id]`
over the allocation, iterating the dict keys (the slot's table ids in
input order); a missing entry is a `KeyError`. -/
def evaluate_total_loss (orderedPrefs : Nat → List (List Nat)) (alloc : Alloc) :
    List Nat → Except PyErr Nat
  | [] => .ok 0
  | t :: ts =>
    match (alloc t).foldl
        (fun acc p => match acc, lossMapOf (orderedPrefs p) t with
          | some s, some l => some (s + l)
          | _, _ => none) (some 0) with
    | none => .error .keyError
    | some here =>
      match evaluate_total_loss orderedPrefs alloc ts with
      | .error e => .error e
      | .ok rest => .ok (here + rest)

/-- The input `GameAllocator.allocate` extracts from the database before
any allocation work: the slot's table allocations with their games'
capacities (`all_table_allocations` / `table_allocation_lookup`) and
`all_preferences_by_player` (insertion-ordered dict as an association
list). -/
structure AllocatorInput where
  tables : List (Nat × GameInfo)
  prefsByPlayer : List (Nat × List SessionPreference)

/-- `table_allocation_lookup[t].game`: first matching entry of the slot's
table list. -/
def lookupTable (tables : List (Nat × GameInfo)) (t : Nat) : GameInfo :=
  ((tables.find? (fun tg => tg.1 == t)).getD (t, default)).2

/-- The dict comprehension building `ordered_preferences_by_player` for
every player in turn, threading the oracle counter through the
`random.sample` calls made inside `_order_preferences_for_player`. -/
def buildOrderedPrefs (o : Oracle) :
    Nat → List (Nat × List SessionPreference) →
      List (Nat × List (List Nat)) × Nat
  | k, [] => ([], k)
  | k, (pid, prefs) :: rest =>
    let here := order_preferences_for_player o k prefs
    let there := buildOrderedPrefs o here.2 rest
    ((pid, here.1) :: there.1, there.2)

/-- Reading the `ordered_preferences_by_player` dict: first matching key
(dict keys are unique), unknown players read as having no tiers. -/
def orderedPrefsFun (l : List (Nat × List (List Nat))) (p : Nat) :
    List (List Nat) :=
  ((l.find? (fun q => q.1 == p)).getD (p, [])).2

/-- The placement loop of one trial
(`for player_id in shuffled_player_ids: ... if not success: raise`):
every player goes through `initial_allocate`; an unplaced player raises
`ValueError("Failed to allocate all players")` immediately. -/
def placeAllPlayers (o : Oracle) (lookup : Nat → GameInfo)
    (orderedPrefs : Nat → List (List Nat)) (trial : Nat) :
    Nat → Alloc → List Nat → Except PyErr (Alloc × Nat)
  | k, alloc, [] => .ok (alloc, k)
  | k, alloc, p :: ps =>
    match initial_allocate o lookup orderedPrefs alloc p k with
    | .error e => .error e
    | .ok (alloc', success, k') =>
      if success then placeAllPlayers o lookup orderedPrefs trial k' alloc' ps
      else .error (.failedToAllocatePlayer p trial)

/-- The repair loop of one trial
(`for ta_id in tables_with_too_few_players: ...`): recompute
`tables_with_more_than_sweet_spot` before every attempt, then run
`try_make_up_numbers`; a failed repair raises
`ValueError("Failed to make up numbers")` immediately. -/
def repairAll (o : Oracle) (lookup : Nat → GameInfo)
    (orderedPrefs : Nat → List (List Nat)) (tables : List (Nat × GameInfo))
    (trial : Nat) : Nat → Alloc → List Nat → Except PyErr (Alloc × Nat)
  | k, alloc, [] => .ok (alloc, k)
  | k, alloc, ta :: rest =>
    let donors := (tables.filter
      (fun tg => tg.2.optimal_players < (alloc tg.1).length)).map (fun tg => tg.1)
    match try_make_up_numbers o lookup orderedPrefs alloc ta donors k with
    | .error e => .error e
    | .ok (alloc', success, k') =>
      if success then repairAll o lookup orderedPrefs tables trial k' alloc' rest
      else .error (.failedToMakeUpNumbers ta trial)

/-- What one trial of the driver loop does: start from the empty
allocation, shuffle the player order, place everyone, check the capacity
`assert`, collect `tables_with_too_few_players`, repair them all and
evaluate the total loss.  Returns the final allocation, its loss and the
advanced counter. -/
def runOneTrial (o : Oracle) (lookup : Nat → GameInfo)
    (orderedPrefs : Nat → List (List Nat)) (tables : List (Nat × GameInfo))
    (playerIds : List Nat) (trial : Nat) (k : Nat) :
    Except PyErr (Alloc × Nat × Nat) :=
  let alloc0 : Alloc := fun _ => []
  match placeAllPlayers o lookup orderedPrefs trial (k + 1) alloc0
      (o.permNat k playerIds) with
  | .error e => .error e
  | .ok (alloc1, k1) =>
    let tooMany := (tables.filter
      (fun tg => tg.2.maximum_players < (alloc1 tg.1).length)).map (fun tg => tg.1)
    if tooMany = [] then
      let tooFew := (tables.filter
        (fun tg => (alloc1 tg.1).length < tg.2.minimum_players)).map (fun tg => tg.1)
      match repairAll o lookup orderedPrefs tables trial k1 alloc1 tooFew with
      | .error e => .error e
      | .ok (alloc2, k2) =>
        match evaluate_total_loss orderedPrefs alloc2 (tables.map (fun tg => tg.1)) with
        | .error e => .error e
        | .ok loss => .ok (alloc2, loss, k2)
    else .error .assertionError

/-- Per-trial data the embedding records so that what a trial used is
observable: the `ordered_preferences_by_player` value in scope during the
trial, and the trial's total loss. -/
structure TrialOutcome where
  tiersUsed : List (Nat × List (List Nat))
  loss : Nat
deriving DecidableEq

/-- The run's final data: the retained best loss and allocation plus the
per-trial records. -/
structure RunResult where
  bestLoss : Nat
  bestAlloc : Alloc
  trials : List TrialOutcome

/-- The driver loop `for seed in range(1, n_trials + 1)` with best-so-far
tracking (`if best_loss is None or loss < best_loss`).  `trial` is the
current trial number, `remaining` how many trials are left.  Reaching the
end with no successful trial recorded cannot happen (any failure raises),
but the total model returns the `assert`-style error there. -/
def runTrialsAux (o : Oracle) (lookup : Nat → GameInfo)
    (orderedPrefsList : List (Nat × List (List Nat)))
    (tables : List (Nat × GameInfo)) (playerIds : List Nat) :
    Nat → Nat → Nat → Option (Nat × Alloc) → List TrialOutcome →
      Except PyErr RunResult
  | _, 0, _, best, recs =>
    match best with
    | some (bl, ba) => .ok ⟨bl, ba, recs⟩
    | none => .error .assertionError
  | trial, remaining + 1, k, best, recs =>
    match runOneTrial o lookup (orderedPrefsFun orderedPrefsList) tables
        playerIds trial k with
    | .error e => .error e
    | .ok (alloc, loss, k') =>
      let best' := match best with
        | none => some (loss, alloc)
        | some (bl, ba) => if loss < bl then some (loss, alloc) else some (bl, ba)
      runTrialsAux o lookup orderedPrefsList tables playerIds (trial + 1)
        remaining k' best' (recs ++ [⟨orderedPrefsList, loss⟩])

/-- `n_trials = 10` in the source. -/
def n_trials : Nat := 10

/-- `GameAllocator.allocate` after the database reads: build
`ordered_preferences_by_player` once (consuming the random stream), then
run the `n_trials` trials, any per-trial failure propagating as the raised
exception. -/
def allocate (o : Oracle) (input : AllocatorInput) : Except PyErr RunResult :=
  let built := buildOrderedPrefs o 0 input.prefsByPlayer
  runTrialsAux o (lookupTable input.tables) built.1 input.tables
    (input.prefsByPlayer.map (fun pp => pp.1)) 1 n_trials built.2 none []

/-! ### Concrete fixtures used by counterexamples and witnesses -/

/-- One table `(min 1, optimal 1, max 1)`; two players whose only
preference row is a score of 5 for that table. -/
def tinyInput : AllocatorInput :=
  ⟨[(1, ⟨1, 1, 1⟩)], [(7, [⟨1, 5⟩]), (8, [⟨1, 5⟩])]⟩

/-- Every table reads `(min 0, optimal 2, max 3)`. -/
def capLookup : Nat → GameInfo := fun _ => ⟨0, 2, 3⟩

/-- Table 1 already seats player 9, all other tables empty. -/
def capAlloc : Alloc := fun t => if t = 1 then [9] else []

/-- Every player has the single tier `[1, 2]`. -/
def capPrefs : Nat → List (List Nat) := fun _ => [[1, 2]]

/-- Table 1 is `(0, 1, 1)`, every other table `(0, 2, 2)`. -/
def bumpLookup : Nat → GameInfo := fun t => if t = 1 then ⟨0, 1, 1⟩ else ⟨0, 2, 2⟩

/-- Player 7 has tiers `[[1, 2]]`, everyone else `[[1]]`. -/
def bumpPrefs : Nat → List (List Nat) := fun p => if p = 7 then [[1, 2]] else [[1]]

/-- Table 1 seats player 7, all other tables empty. -/
def bumpAlloc : Alloc := fun t => if t = 1 then [7] else []

/-- Repair fixture: table 1 is `(2, 2, 3)` and empty, table 2 is
`(0, 1, 5)` and seats players 4, 5, 6 (over its sweet spot). -/
def repLookup : Nat → GameInfo := fun t => if t = 1 then ⟨2, 2, 3⟩ else ⟨0, 1, 5⟩

/-- Table 2 seats players 4, 5 and 6. -/
def repAlloc : Alloc := fun t => if t = 2 then [4, 5, 6] else []

/-- Every player has the single tier `[1, 2]`. -/
def repPrefs : Nat → List (List Nat) := fun _ => [[1, 2]]

/-- Like `repPrefs` but player 6 has no preference entry for table 1. -/
def repPrefsHole : Nat → List (List Nat) := fun p => if p = 6 then [[2]] else [[1, 2]]

/-- Two tables `(0, 2, 2)`; one player with equal score 3 for both, so both
tables share one preference tier. -/
def twinInput : AllocatorInput :=
  ⟨[(1, ⟨0, 2, 2⟩), (2, ⟨0, 2, 2⟩)], [(5, [⟨1, 3⟩, ⟨2, 3⟩])]⟩

/-- An oracle that samples the identity permutation on the very first call
and the reversal on every later call. -/
def twinOracle : Oracle :=
  ⟨fun k l => if k = 0 then l else l.reverse, fun _ l => l, fun _ l => l⟩

/-- Tables for the C7 counterexample: table 1 is `(1, 1, 1)` and table 2 is
`(1, 1, 5)`, so the total maximum capacity is 6. -/
def sparseTables : List (Nat × GameInfo) := [(1, ⟨1, 1, 1⟩), (2, ⟨1, 1, 5⟩)]

/-- Both players 7 and 8 only have table 1 in their tiers (no preference
entry for table 2). -/
def sparsePrefs : Nat → List (List Nat) := fun _ => [[1]]

/-- The empty allocation every trial starts from. -/
def emptyAlloc : Alloc := fun _ => []

/-! ### Shared lemmas -/

theorem idOracle_wf : idOracle.WF :=
  ⟨fun _ _ => List.Perm.refl _, fun _ _ => List.Perm.refl _, fun _ _ => List.Perm.refl _⟩

theorem twinOracle_wf : twinOracle.WF := by
  refine ⟨fun k l => ?_, fun _ _ => List.Perm.refl _, fun _ _ => List.Perm.refl _⟩
  by_cases h : k = 0 <;> simp [twinOracle, h, List.reverse_perm]

/-- `lossMapOf tiers t = some i` locates `t` in tier `i`. -/
theorem lossMapOf_some_mem {tiers : List (List Nat)} {t i : Nat}
    (h : lossMapOf tiers t = some i) :
    ∃ hi : i < tiers.length, t ∈ tiers.get ⟨i, hi⟩ := by
  induction tiers generalizing i with
  | nil => simp [lossMapOf] at h
  | cons tas rest ih =>
    rw [lossMapOf] at h
    cases hr : lossMapOf rest t with
    | some j =>
      rw [hr] at h
      obtain rfl : j + 1 = i := by simpa using h
      obtain ⟨hj, hmem⟩ := ih hr
      exact ⟨Nat.succ_lt_succ hj, hmem⟩
    | none =>
      rw [hr] at h
      by_cases hm : t ∈ tas
      · simp only [hm, if_pos] at h
        obtain rfl : 0 = i := by simpa using h
        exact ⟨Nat.succ_pos _, hm⟩
      · simp [hm] at h

/-- The loss map is undefined exactly on the tables missing from every
tier. -/
theorem lossMapOf_eq_none {tiers : List (List Nat)} {t : Nat} :
    lossMapOf tiers t = none ↔ t ∉ tiers.flatten := by
  induction tiers with
  | nil => simp [lossMapOf]
  | cons tas rest ih =>
    rw [lossMapOf]
    cases hr : lossMapOf rest t with
    | some j =>
      have : t ∈ rest.flatten := by
        by_contra hmem
        rw [← ih] at hmem
        simp [hmem] at hr
      simp [List.flatten_cons, this]
    | none =>
      have hmem : t ∉ rest.flatten := ih.mp hr
      by_cases hm : t ∈ tas <;> simp [List.flatten_cons, hm, hmem]

/-- With pairwise-disjoint tiers (nodup flattening), membership in tier `i`
determines the loss value. -/
theorem lossMapOf_of_mem_get {tiers : List (List Nat)} (hnd : tiers.flatten.Nodup)
    {i : Nat} (hi : i < tiers.length) {t : Nat}
    (hm : t ∈ tiers.get ⟨i, hi⟩) : lossMapOf tiers t = some i := by
  induction tiers generalizing i with
  | nil => simp at hi
  | cons tas rest ih =>
    rw [List.flatten_cons, List.nodup_append] at hnd
    rw [lossMapOf]
    cases i with
    | zero =>
      have htas : t ∈ tas := hm
      have : t ∉ rest.flatten := fun hc => hnd.2.2 htas hc
      rw [lossMapOf_eq_none.mpr this]
      simp [htas]
    | succ j =>
      have hj : j < rest.length := Nat.lt_of_succ_lt_succ hi
      have := ih hnd.2.1 hj hm
      rw [this]

/-- `groupRunsAux` flattens back to the run it is building followed by the
rest of the input. -/
theorem groupRunsAux_flatten (key : α → Nat) (x : α) (acc rest : List α) :
    (groupRunsAux key x acc rest).flatten = x :: (acc.reverse ++ rest) := by
  induction rest generalizing x acc with
  | nil => simp [groupRunsAux]
  | cons y ys ih =>
    rw [groupRunsAux]
    split
    · rw [ih]; simp
    · rw [List.flatten_cons, ih]; simp

/-- `groupby` splits without losing or reordering elements. -/
theorem groupRuns_flatten (key : α → Nat) (l : List α) :
    (groupRuns key l).flatten = l := by
  cases l with
  | nil => rfl
  | cons x xs => rw [groupRuns, groupRunsAux_flatten]; simp

/-- Every element of a `groupRunsAux` run has the key of the run it sits
in; stated against the head element `x` and accumulator invariant. -/
theorem groupRunsAux_key_eq (key : α → Nat) {x : α} {acc rest : List α}
    (hacc : ∀ a ∈ acc, key a = key x) {g : List α}
    (hg : g ∈ groupRunsAux key x acc rest) {a b : α}
    (ha : a ∈ g) (hb : b ∈ g) : key a = key b := by
  induction rest generalizing x acc with
  | nil =>
    simp only [groupRunsAux, List.mem_singleton] at hg
    subst hg
    have key_of : ∀ c ∈ x :: acc.reverse, key c = key x := by
      intro c hc
      rcases List.mem_cons.mp hc with rfl | hc
      · rfl
      · exact hacc c (List.mem_reverse.mp hc)
    rw [key_of a ha, key_of b hb]
  | cons y ys ih =>
    rw [groupRunsAux] at hg
    split at hg
    case isTrue hk =>
      refine ih (fun c hc => ?_) hg
      rcases List.mem_cons.mp hc with rfl | hc
      · exact hk
      · exact hacc c hc
    case isFalse hk =>
      rcases List.mem_cons.mp hg with rfl | hg
      · have key_of : ∀ c ∈ x :: acc.reverse, key c = key x := by
          intro c hc
          rcases List.mem_cons.mp hc with rfl | hc
          · rfl
          · exact hacc c (List.mem_reverse.mp hc)
        rw [key_of a ha, key_of b hb]
      · exact ih (by simp) hg

/-- On a key-descending input, `groupRunsAux` produces runs whose keys
strictly decrease from one run to the next. -/
theorem groupRunsAux_pairwise (key : α → Nat) {x : α} {acc rest : List α}
    (hacc : ∀ a ∈ acc, key a = key x)
    (hsort : rest.Pairwise (fun a b => key b ≤ key a))
    (hbound : ∀ y ∈ rest, key y ≤ key x) :
    (groupRunsAux key x acc rest).Pairwise
      (fun g1 g2 => ∀ a ∈ g1, ∀ b ∈ g2, key b < key a) := by
  induction rest generalizing x acc with
  | nil => simp [groupRunsAux]
  | cons y ys ih =>
    rw [groupRunsAux]
    rw [List.pairwise_cons] at hsort
    split
    case isTrue hk =>
      refine ih (fun c hc => ?_) hsort.2 (fun z hz => ?_)
      · rcases List.mem_cons.mp hc with rfl | hc
        · exact hk
        · exact hacc c hc
      · exact hk ▸ hsort.1 z hz
    case isFalse hk =>
      have hyx : key y < key x :=
        lt_of_le_of_ne (hbound y (List.mem_cons_self y ys)) hk
      refine List.pairwise_cons.mpr ⟨?_, ?_⟩
      · intro g hg a ha b hb
        have hbmem : b ∈ y :: ys := by
          have : b ∈ (groupRunsAux key y [] ys).flatten :=
            List.mem_flatten.mpr ⟨g, hg, hb⟩
          rw [groupRunsAux_flatten] at this
          simpa using this
        have hble : key b ≤ key y := by
          rcases List.mem_cons.mp hbmem with rfl | hbmem
          · exact le_refl _
          · exact hsort.1 b hbmem
        have hax : key a = key x := by
          rcases List.mem_cons.mp ha with rfl | ha
          · rfl
          · exact hacc a (List.mem_reverse.mp ha)
        exact hax ▸ lt_of_le_of_lt hble hyx
      · exact ih (by simp) hsort.2 (fun z hz => hsort.1 z hz)

/-- Elements sharing a run of `groupRuns` share their key. -/
theorem groupRuns_key_eq (key : α → Nat) {l : List α} {g : List α}
    (hg : g ∈ groupRuns key l) {a b : α} (ha : a ∈ g) (hb : b ∈ g) :
    key a = key b := by
  cases l with
  | nil => simp [groupRuns] at hg
  | cons x xs => exact groupRunsAux_key_eq key (by simp) hg ha hb

/-- On a key-descending input the runs of `groupRuns` have strictly
decreasing keys. -/
theorem groupRuns_pairwise (key : α → Nat) {l : List α}
    (hsort : l.Pairwise (fun a b => key b ≤ key a)) :
    (groupRuns key l).Pairwise
      (fun g1 g2 => ∀ a ∈ g1, ∀ b ∈ g2, key b < key a) := by
  cases l with
  | nil => simp [groupRuns]
  | cons x xs =>
    rw [List.pairwise_cons] at hsort
    exact groupRunsAux_pairwise key (by simp) hsort.2 hsort.1

/-- `shuffleGroups` keeps the number of groups. -/
theorem shuffleGroups_length (o : Oracle) (k : Nat)
    (gs : List (List SessionPreference)) :
    (shuffleGroups o k gs).1.length = gs.length := by
  induction gs generalizing k with
  | nil => rfl
  | cons g gs ih => simp [shuffleGroups, ih]

/-- With a well-formed oracle, `shuffleGroups` permutes each group in
place. -/
theorem shuffleGroups_forall₂ {o : Oracle} (hWF : o.WF) (k : Nat)
    (gs : List (List SessionPreference)) :
    List.Forall₂ List.Perm (shuffleGroups o k gs).1 gs := by
  induction gs generalizing k with
  | nil => exact List.Forall₂.nil
  | cons g gs ih => exact List.Forall₂.cons (hWF.1 k g) (ih (k + 1))

/-- Flattening two pointwise-permuted lists of lists gives permuted
flattenings. -/
theorem flatten_perm_of_forall₂ {l1 l2 : List (List α)}
    (h : List.Forall₂ List.Perm l1 l2) : l1.flatten.Perm l2.flatten := by
  induction h with
  | nil => exact List.Perm.refl _
  | cons hp _ ih => exact List.Perm.append hp ih

/-- The tiers a player gets flatten to a permutation of the player's
preference rows' table ids. -/
theorem order_preferences_flatten_perm {o : Oracle} (hWF : o.WF) (k : Nat)
    (prefs : List SessionPreference) :
    ((order_preferences_for_player o k prefs).1.flatten).Perm
      (prefs.map SessionPreference.table_allocation_id) := by
  show (((shuffleGroups o k (groupRuns (fun sp : SessionPreference => sp.preference)
      (List.insertionSort (fun a b : SessionPreference => b.preference ≤ a.preference)
        prefs))).1.map (fun g : List SessionPreference =>
          g.map (fun sp : SessionPreference => sp.table_allocation_id))).flatten).Perm _
  rw [show (fun g : List SessionPreference =>
      g.map (fun sp : SessionPreference => sp.table_allocation_id))
      = List.map SessionPreference.table_allocation_id from rfl]
  rw [← List.map_flatten]
  have h1 := (flatten_perm_of_forall₂ (shuffleGroups_forall₂ hWF k
    (groupRuns (fun sp : SessionPreference => sp.preference)
      (List.insertionSort (fun a b : SessionPreference => b.preference ≤ a.preference)
        prefs)))).map SessionPreference.table_allocation_id
  refine h1.trans ?_
  rw [groupRuns_flatten]
  exact (List.perm_insertionSort _ _).map _

/-- With distinct table ids in the preference rows, the built tiers are
pairwise disjoint (their flattening has no duplicates). -/
theorem order_preferences_flatten_nodup {o : Oracle} (hWF : o.WF) (k : Nat)
    (prefs : List SessionPreference)
    (hnd : (prefs.map SessionPreference.table_allocation_id).Nodup) :
    ((order_preferences_for_player o k prefs).1.flatten).Nodup :=
  ((order_preferences_flatten_perm hWF k prefs).nodup_iff).mpr hnd

/-- C8: for any two sessions `a`, `b` in a group's preference rows with
`pref[a] > pref[b]`, the tier index (= loss) assigned to `a` by
`_order_preferences_for_player` is strictly smaller than the one assigned
to `b`. -/
theorem C8_tier_strictly_monotone {o : Oracle} (hWF : o.WF) (k : Nat)
    (prefs : List SessionPreference)
    (hnd : (prefs.map SessionPreference.table_allocation_id).Nodup)
    {spA spB : SessionPreference} (ha : spA ∈ prefs) (hb : spB ∈ prefs)
    (hab : spB.preference < spA.preference) :
    ∃ ia ib,
      lossMapOf (order_preferences_for_player o k prefs).1
          spA.table_allocation_id = some ia ∧
      lossMapOf (order_preferences_for_player o k prefs).1
          spB.table_allocation_id = some ib ∧
      ia < ib := by
  have hperm : (List.insertionSort
      (fun a b : SessionPreference => b.preference ≤ a.preference) prefs).Perm prefs :=
    List.perm_insertionSort _ _
  have hsort : (List.insertionSort
      (fun a b : SessionPreference => b.preference ≤ a.preference) prefs).Pairwise
      (fun a b => b.preference ≤ a.preference) :=
    List.sorted_insertionSort _ _
  have hpair := groupRuns_pairwise (fun sp : SessionPreference => sp.preference) hsort
  have hf2 := shuffleGroups_forall₂ hWF k (groupRuns (fun sp : SessionPreference => sp.preference)
    (List.insertionSort (fun a b : SessionPreference => b.preference ≤ a.preference) prefs))
  obtain ⟨hlen, hget⟩ := List.forall₂_iff_get.mp hf2
  have htiers : (order_preferences_for_player o k prefs).1
      = (shuffleGroups o k (groupRuns (fun sp : SessionPreference => sp.preference)
        (List.insertionSort (fun a b : SessionPreference => b.preference ≤ a.preference)
          prefs))).1.map (List.map SessionPreference.table_allocation_id) := rfl
  -- locate the two rows in the runs
  have haf : spA ∈ (groupRuns (fun sp : SessionPreference => sp.preference)
      (List.insertionSort (fun a b : SessionPreference => b.preference ≤ a.preference)
        prefs)).flatten := by
    rw [groupRuns_flatten]; exact hperm.mem_iff.mpr ha
  have hbf : spB ∈ (groupRuns (fun sp : SessionPreference => sp.preference)
      (List.insertionSort (fun a b : SessionPreference => b.preference ≤ a.preference)
        prefs)).flatten := by
    rw [groupRuns_flatten]; exact hperm.mem_iff.mpr hb
  obtain ⟨gA, hgA, hAg⟩ := List.mem_flatten.mp haf
  obtain ⟨gB, hgB, hBg⟩ := List.mem_flatten.mp hbf
  obtain ⟨ia, hia, rfl⟩ := List.mem_iff_getElem.mp hgA
  obtain ⟨ib, hib, rfl⟩ := List.mem_iff_getElem.mp hgB
  -- strict ordering of the run indices
  have hne : ia ≠ ib := by
    intro h
    subst h
    exact absurd (groupRuns_key_eq (fun sp : SessionPreference => sp.preference) hgA hAg hBg)
      (Nat.ne_of_gt hab)
  have hlt : ia < ib := by
    rcases Nat.lt_or_ge ia ib with h | h
    · exact h
    · rcases Nat.lt_or_ge ib ia with h2 | h2
      · have hcon : spA.preference < spB.preference :=
          List.pairwise_iff_getElem.mp hpair ib ia hib hia h2 spB hBg spA hAg
        omega
      · omega
  -- read off the loss values through the shuffle and the projection
  have hndT := order_preferences_flatten_nodup hWF k prefs hnd
  have hlenT : ia < (order_preferences_for_player o k prefs).1.length ∧
      ib < (order_preferences_for_player o k prefs).1.length := by
    rw [htiers, List.length_map, hlen]
    exact ⟨hia, hib⟩
  have hmemA : spA.table_allocation_id ∈
      ((order_preferences_for_player o k prefs).1).get ⟨ia, hlenT.1⟩ := by
    show spA.table_allocation_id ∈
      ((shuffleGroups o k (groupRuns (fun sp : SessionPreference => sp.preference)
        (List.insertionSort (fun a b : SessionPreference => b.preference ≤ a.preference)
          prefs))).1.map (List.map SessionPreference.table_allocation_id)).get
        ⟨ia, hlenT.1⟩
    rw [List.get_eq_getElem, List.getElem_map]
    refine List.mem_map.mpr ⟨spA, ?_, rfl⟩
    have hp := hget ia (by rw [hlen]; exact hia) hia
    rw [List.get_eq_getElem, List.get_eq_getElem] at hp
    exact hp.mem_iff.mpr hAg
  have hmemB : spB.table_allocation_id ∈
      ((order_preferences_for_player o k prefs).1).get ⟨ib, hlenT.2⟩ := by
    show spB.table_allocation_id ∈
      ((shuffleGroups o k (groupRuns (fun sp : SessionPreference => sp.preference)
        (List.insertionSort (fun a b : SessionPreference => b.preference ≤ a.preference)
          prefs))).1.map (List.map SessionPreference.table_allocation_id)).get
        ⟨ib, hlenT.2⟩
    rw [List.get_eq_getElem, List.getElem_map]
    refine List.mem_map.mpr ⟨spB, ?_, rfl⟩
    have hp := hget ib (by rw [hlen]; exact hib) hib
    rw [List.get_eq_getElem, List.get_eq_getElem] at hp
    exact hp.mem_iff.mpr hBg
  exact ⟨ia, ib, lossMapOf_of_mem_get hndT _ hmemA, lossMapOf_of_mem_get hndT _ hmemB, hlt⟩

/-- C8 witness: two rows with scores 5 and 3 end in tiers 0 and 1. -/
theorem C8_witness :
    ∃ ia ib,
      lossMapOf (order_preferences_for_player idOracle 0 [⟨1, 5⟩, ⟨2, 3⟩]).1 1 = some ia ∧
      lossMapOf (order_preferences_for_player idOracle 0 [⟨1, 5⟩, ⟨2, 3⟩]).1 2 = some ib ∧
      ia < ib :=
  @C8_tier_strictly_monotone idOracle idOracle_wf 0 [⟨1, 5⟩, ⟨2, 3⟩] (by decide)
    ⟨1, 5⟩ ⟨2, 3⟩ (by decide) (by decide) (by decide)

/-- C2 counterexample: with one tier `[1, 2]`, table 1 fuller (one seat
taken, remaining capacity 2) and table 2 empty (remaining capacity 3),
`ta_ids_sorted_by_missing_players` is `[1, 2]` — the fuller table first —
and the polite pass of `initial_allocate` seats player 2 at the fuller
table 1, not at the emptier preferred session as the claim states. -/
theorem C2_counterexample :
    politeOrder capLookup capAlloc [1, 2] = [1, 2] ∧
    missingPlayersKey capLookup capAlloc 1 < missingPlayersKey capLookup capAlloc 2 ∧
    (initial_allocate idOracle capLookup capPrefs capAlloc 2 0).map
      (fun r => (r.1 1, r.1 2, r.2.1)) = .ok ([9, 2], [], true) :=
  ⟨by decide, by decide, rfl⟩

/-- C2 amended: within each tier the polite pass tries the tier's sessions
in ascending order of remaining capacity `max(s) - current_load(s)` (the
fullest session with room is tried first), the examined order being a
permutation of the tier sorted by that key. -/
theorem C2_amended_ascending_order (lookup : Nat → GameInfo) (alloc : Alloc)
    (tier : List Nat) :
    (politeOrder lookup alloc tier).Perm tier ∧
      (politeOrder lookup alloc tier).Pairwise
        (fun a b => missingPlayersKey lookup alloc a ≤ missingPlayersKey lookup alloc b) :=
  ⟨List.perm_insertionSort _ _, List.sorted_insertionSort _ _⟩

/-- C5 counterexample: player 5 has a preference row for table 1 only; the
loss map the driver builds for player 5 is undefined at the slot's other
table 2 (a lookup raises `KeyError`) and table 2 is in none of the tiers —
no default score of 3 is applied. -/
theorem C5_counterexample :
    lossMapOf (orderedPrefsFun
      (buildOrderedPrefs idOracle 0 [(5, [⟨1, 5⟩])]).1 5) 2 = none ∧
    2 ∉ (orderedPrefsFun (buildOrderedPrefs idOracle 0 [(5, [⟨1, 5⟩])]).1 5).flatten := by
  refine ⟨?_, ?_⟩ <;> decide

/-- C5 amended: a session of the slot for which the group has no
preference entry is absent from every tier of the group and the loss map
is undefined (raises `KeyError`) there; no default score 3 exists. -/
theorem C5_amended_missing_is_undefined {o : Oracle} (hWF : o.WF) (k : Nat)
    (prefs : List SessionPreference) {t : Nat}
    (h : t ∉ prefs.map SessionPreference.table_allocation_id) :
    lossMapOf (order_preferences_for_player o k prefs).1 t = none ∧
      t ∉ (order_preferences_for_player o k prefs).1.flatten := by
  have hmem : t ∉ (order_preferences_for_player o k prefs).1.flatten := by
    intro hc
    exact h ((order_preferences_flatten_perm hWF k prefs).mem_iff.mp hc)
  exact ⟨lossMapOf_eq_none.mpr hmem, hmem⟩

/-- C5 witness: concrete instance of the amended statement. -/
theorem C5_witness :
    lossMapOf (order_preferences_for_player idOracle 0 [⟨1, 5⟩]).1 2 = none ∧
      2 ∉ (order_preferences_for_player idOracle 0 [⟨1, 5⟩]).1.flatten :=
  C5_amended_missing_is_undefined idOracle_wf 0 [⟨1, 5⟩] (by decide)

/-- A found table has room and lies in the scanned list. -/
theorem firstTableWithRoom_some {lookup : Nat → GameInfo} {alloc : Alloc}
    {l : List Nat} {t : Nat} (h : firstTableWithRoom lookup alloc l = some t) :
    t ∈ l ∧ (alloc t).length < (lookup t).maximum_players := by
  induction l with
  | nil => simp [firstTableWithRoom] at h
  | cons t0 ts ih =>
    rw [firstTableWithRoom] at h
    by_cases hr : (alloc t0).length < (lookup t0).maximum_players
    · rw [if_pos hr] at h
      obtain rfl : t0 = t := by simpa using h
      exact ⟨List.mem_cons_self _ _, hr⟩
    · rw [if_neg hr] at h
      obtain ⟨hm, hroom⟩ := ih h
      exact ⟨List.mem_cons_of_mem _ hm, hroom⟩

/-- A failed room search means every scanned table is full. -/
theorem firstTableWithRoom_none {lookup : Nat → GameInfo} {alloc : Alloc}
    {l : List Nat} (h : firstTableWithRoom lookup alloc l = none) :
    ∀ t ∈ l, ¬ (alloc t).length < (lookup t).maximum_players := by
  induction l with
  | nil => simp
  | cons t0 ts ih =>
    rw [firstTableWithRoom] at h
    by_cases hr : (alloc t0).length < (lookup t0).maximum_players
    · rw [if_pos hr] at h; cases h
    · rw [if_neg hr] at h
      intro t ht
      rcases List.mem_cons.mp ht with rfl | ht
      · exact hr
      · exact ih h t ht

/-- What a successful bump scan over one table's incumbents guarantees:
the chosen incumbent is seated there, its loss at the table is defined and
at least the newcomer's, and the chosen refuge is a same-loss tier table
with room. -/
theorem bumpScanPlayers_ok_some {o : Oracle} (hWF : o.WF)
    {lookup : Nat → GameInfo} {orderedPrefs : Nat → List (List Nat)}
    {alloc : Alloc} {t ourLoss : Nat} {k : Nat} {hs : List Nat}
    {h t2 : Nat} {k' : Nat}
    (hres : bumpScanPlayers o lookup orderedPrefs alloc t ourLoss k hs
      = .ok (some (h, t2), k')) :
    h ∈ hs ∧ ∃ lh, lossMapOf (orderedPrefs h) t = some lh ∧ ourLoss ≤ lh ∧
      t2 ∈ (orderedPrefs h).getD lh [] ∧
      (alloc t2).length < (lookup t2).maximum_players := by
  induction hs generalizing k with
  | nil => simp [bumpScanPlayers] at hres
  | cons h0 hs ih =>
    rw [bumpScanPlayers] at hres
    split at hres
    · cases hres
    case h_2 lh0 hl =>
      split at hres
      case isTrue hle =>
        split at hres
        case h_1 tf hf =>
          obtain ⟨rfl, rfl⟩ : h0 = h ∧ tf = t2 := by
            constructor <;> · cases hres; rfl
          obtain ⟨hmem, hroom⟩ := firstTableWithRoom_some hf
          exact ⟨List.mem_cons_self _ _,
            lh0, hl, hle, (hWF.2.1 k _).mem_iff.mp hmem, hroom⟩
        case h_2 hf =>
          obtain ⟨hm, rest⟩ := ih hres
          exact ⟨List.mem_cons_of_mem _ hm, rest⟩
      case isFalse hle =>
        obtain ⟨hm, rest⟩ := ih hres
        exact ⟨List.mem_cons_of_mem _ hm, rest⟩

/-- What a successful bump scan over a list of tables guarantees. -/
theorem bumpScanTables_ok_some {o : Oracle} (hWF : o.WF)
    {lookup : Nat → GameInfo} {orderedPrefs : Nat → List (List Nat)}
    {alloc : Alloc} {ourLoss : Nat} {k : Nat} {ts : List Nat}
    {t h t2 : Nat} {k' : Nat}
    (hres : bumpScanTables o lookup orderedPrefs alloc ourLoss k ts
      = .ok (some (t, h, t2), k')) :
    t ∈ ts ∧ h ∈ alloc t ∧ ∃ lh, lossMapOf (orderedPrefs h) t = some lh ∧
      ourLoss ≤ lh ∧ t2 ∈ (orderedPrefs h).getD lh [] ∧
      (alloc t2).length < (lookup t2).maximum_players := by
  induction ts generalizing k with
  | nil => simp [bumpScanTables] at hres
  | cons t0 ts ih =>
    rw [bumpScanTables] at hres
    split at hres
    · cases hres
    case h_2 hh ht2 k1 hp =>
      obtain ⟨rfl, rfl, rfl, rfl⟩ : t0 = t ∧ hh = h ∧ ht2 = t2 ∧ k1 = k' := by
        refine ⟨?_, ?_, ?_, ?_⟩ <;> · cases hres; rfl
      obtain ⟨hmem, rest⟩ := bumpScanPlayers_ok_some hWF hp
      exact ⟨List.mem_cons_self _ _, hmem, rest⟩
    case h_3 k1 hp =>
      obtain ⟨hm, rest⟩ := ih hres
      exact ⟨List.mem_cons_of_mem _ hm, rest⟩

/-- Case analysis of a successful placement: either the polite pass seated
the player at a preferred table with room, or the bump pass moved an
incumbent `h` (of defined loss `lh` at the full table `t`) sideways into a
table `t2` of its own tier `lh` with room, and seated the player at `t`. -/
theorem initialAllocateAux_ok_true {o : Oracle} (hWF : o.WF)
    {lookup : Nat → GameInfo} {orderedPrefs : Nat → List (List Nat)}
    {player ourLoss k : Nat} {alloc alloc' : Alloc} {tiersL : List (List Nat)}
    {k' : Nat}
    (hres : initialAllocateAux o lookup orderedPrefs player ourLoss k alloc tiersL
      = .ok (alloc', true, k')) :
    (∃ t ∈ tiersL.flatten, (alloc t).length < (lookup t).maximum_players ∧
      alloc' = appendAt alloc t player) ∨
    (∃ t ∈ tiersL.flatten, ∃ h ∈ alloc t, ∃ lh t2,
      ¬ (alloc t).length < (lookup t).maximum_players ∧
      lossMapOf (orderedPrefs h) t = some lh ∧
      t2 ∈ (orderedPrefs h).getD lh [] ∧
      (alloc t2).length < (lookup t2).maximum_players ∧
      alloc' = appendAt (appendAt (removeAt alloc t h) t2 h) t player) := by
  induction tiersL generalizing ourLoss k with
  | nil => simp [initialAllocateAux] at hres
  | cons tier rest ih =>
    rw [initialAllocateAux] at hres
    split at hres
    case h_1 t0 hpol =>
      obtain ⟨rfl, rfl⟩ : appendAt alloc t0 player = alloc' ∧ k = k' := by
        constructor <;> · cases hres; rfl
      obtain ⟨hmem, hroom⟩ := firstTableWithRoom_some hpol
      have hmem' : t0 ∈ tier := ((List.perm_insertionSort _ _).mem_iff).mp hmem
      exact Or.inl ⟨t0, by simp [List.flatten_cons, hmem'], hroom, rfl⟩
    case h_2 hpol =>
      split at hres
      · cases hres
      case h_2 t0 h0 t20 k1 hbump =>
        obtain ⟨rfl, rfl⟩ :
            appendAt (appendAt (removeAt alloc t0 h0) t20 h0) t0 player = alloc'
              ∧ k1 = k' := by
          constructor <;> · cases hres; rfl
        obtain ⟨htmem, hhmem, lh, hl, _, ht2, hroom⟩ := bumpScanTables_ok_some hWF hbump
        have htier : t0 ∈ tier := ((hWF.2.1 k tier).mem_iff).mp htmem
        have hfull := firstTableWithRoom_none hpol t0
          (((List.perm_insertionSort _ _).mem_iff).mpr htier)
        exact Or.inr ⟨t0, by simp [List.flatten_cons, htier], h0, hhmem, lh, t20,
          hfull, hl, ht2, hroom, rfl⟩
      case h_3 k1 hbump =>
        rcases ih hres with ⟨t0, hmem, hrest⟩ | ⟨t0, hmem, hrest⟩
        · exact Or.inl ⟨t0, by simp [List.flatten_cons]; exact Or.inr (List.mem_flatten.mp hmem), hrest⟩
        · exact Or.inr ⟨t0, by simp [List.flatten_cons]; exact Or.inr (List.mem_flatten.mp hmem), hrest⟩

/-- A failed placement leaves the allocation untouched and certifies that
every table in every walked tier was full. -/
theorem initialAllocateAux_ok_false {o : Oracle}
    {lookup : Nat → GameInfo} {orderedPrefs : Nat → List (List Nat)}
    {player ourLoss k : Nat} {alloc alloc' : Alloc} {tiersL : List (List Nat)}
    {k' : Nat}
    (hres : initialAllocateAux o lookup orderedPrefs player ourLoss k alloc tiersL
      = .ok (alloc', false, k')) :
    alloc' = alloc ∧
      ∀ t ∈ tiersL.flatten, ¬ (alloc t).length < (lookup t).maximum_players := by
  induction tiersL generalizing ourLoss k with
  | nil =>
    rw [initialAllocateAux] at hres
    obtain ⟨rfl, rfl⟩ : alloc = alloc' ∧ k = k' := by
      constructor <;> · cases hres; rfl
    exact ⟨rfl, by simp⟩
  | cons tier rest ih =>
    rw [initialAllocateAux] at hres
    split at hres
    case h_1 t0 hpol => cases hres
    case h_2 hpol =>
      split at hres
      · cases hres
      case h_2 t0 h0 t20 k1 hbump => cases hres
      case h_3 k1 hbump =>
        obtain ⟨rfl, hfull⟩ := ih hres
        refine ⟨rfl, ?_⟩
        intro t ht
        rw [List.flatten_cons, List.mem_append] at ht
        rcases ht with ht | ht
        · exact firstTableWithRoom_none hpol t
            (((List.perm_insertionSort _ _).mem_iff).mpr ht)
        · exact hfull t ht

/-- Membership in an `appendAt` update. -/
theorem mem_appendAt {alloc : Alloc} {t p q t' : Nat} :
    q ∈ appendAt alloc t p t' ↔ (q ∈ alloc t' ∨ (t' = t ∧ q = p)) := by
  unfold appendAt
  by_cases h : t' = t <;> simp [h]

/-- `removeAt` only removes. -/
theorem mem_removeAt {alloc : Alloc} {t p q t' : Nat}
    (h : q ∈ removeAt alloc t p t') : q ∈ alloc t' := by
  unfold removeAt at h
  by_cases ht : t' = t
  · rw [if_pos ht] at h
    exact ht ▸ List.erase_subset _ _ h
  · rwa [if_neg ht] at h

/-- Every pair produced by the per-donor scan satisfies the scan's filter:
the player sits at the donor, both loss lookups are defined, the move does
not improve the player (`not other_ta_loss > loss[...][ta_id]` kept it)
and the target lies in the player's tier at its current loss. -/
theorem mem_scanPlayersAtDonor {orderedPrefs : Nat → List (List Nat)}
    {ta d : Nat} {ps : List Nat} {res : List (Nat × Nat)}
    (hres : scanPlayersAtDonor orderedPrefs ta d ps = .ok res)
    {dd p : Nat} (hmem : (dd, p) ∈ res) :
    dd = d ∧ p ∈ ps ∧ ∃ ld lt, lossMapOf (orderedPrefs p) d = some ld ∧
      lossMapOf (orderedPrefs p) ta = some lt ∧ ¬ lt < ld ∧
      ta ∈ (orderedPrefs p).getD ld [] := by
  induction ps generalizing res with
  | nil =>
    obtain rfl : ([] : List (Nat × Nat)) = res := by cases hres; rfl
    simp at hmem
  | cons p0 ps ih =>
    rw [scanPlayersAtDonor] at hres
    split at hres
    · cases hres
    case h_2 ld0 hld =>
      split at hres
      · cases hres
      case h_2 lt0 hlt =>
        split at hres
        case isTrue hltld =>
          obtain ⟨hd, hp, rest⟩ := ih hres hmem
          exact ⟨hd, List.mem_cons_of_mem _ hp, rest⟩
        case isFalse hltld =>
          split at hres
          case isTrue hta =>
            split at hres
            · cases hres
            case h_2 rest0 hrec =>
              obtain rfl : (d, p0) :: rest0 = res := by cases hres; rfl
              rcases List.mem_cons.mp hmem with hpair | hmem'
              · obtain ⟨rfl, rfl⟩ : dd = d ∧ p = p0 := by
                  constructor <;> · cases hpair; rfl
                exact ⟨rfl, List.mem_cons_self _ _,
                  ld0, lt0, hld, hlt, hltld, hta⟩
              · obtain ⟨hd, hp, rest⟩ := ih hrec hmem'
                exact ⟨hd, List.mem_cons_of_mem _ hp, rest⟩
          case isFalse hta =>
            obtain ⟨hd, hp, rest⟩ := ih hres hmem
            exact ⟨hd, List.mem_cons_of_mem _ hp, rest⟩

/-- Every candidate of `possible_players_to_move` comes from a donor table
different from the target and satisfies the per-player filter. -/
theorem mem_scanCandidates {orderedPrefs : Nat → List (List Nat)}
    {alloc : Alloc} {ta : Nat} {donors : List Nat} {res : List (Nat × Nat)}
    (hres : scanCandidates orderedPrefs alloc ta donors = .ok res)
    {d p : Nat} (hmem : (d, p) ∈ res) :
    d ∈ donors ∧ d ≠ ta ∧ p ∈ alloc d ∧
      ∃ ld lt, lossMapOf (orderedPrefs p) d = some ld ∧
        lossMapOf (orderedPrefs p) ta = some lt ∧ ¬ lt < ld ∧
        ta ∈ (orderedPrefs p).getD ld [] := by
  induction donors generalizing res with
  | nil =>
    obtain rfl : ([] : List (Nat × Nat)) = res := by cases hres; rfl
    simp at hmem
  | cons d0 ds ih =>
    rw [scanCandidates] at hres
    split at hres
    case isTrue hd0 =>
      obtain ⟨hd, rest⟩ := ih hres hmem
      exact ⟨List.mem_cons_of_mem _ hd, rest⟩
    case isFalse hd0 =>
      split at hres
      · cases hres
      case h_2 here hhere =>
        split at hres
        · cases hres
        case h_2 rest0 hrest0 =>
          obtain rfl : here ++ rest0 = res := by cases hres; rfl
          rcases List.mem_append.mp hmem with hmem' | hmem'
          · obtain ⟨rfl, hp, conds⟩ := mem_scanPlayersAtDonor hhere hmem'
            exact ⟨List.mem_cons_self _ _, hd0, hp, conds⟩
          · obtain ⟨hd, rest⟩ := ih hrest0 hmem'
            exact ⟨List.mem_cons_of_mem _ hd, rest⟩

/-- The greedy selection only ever picks from the accumulator or the
candidate list. -/
theorem selectMoves_subset {lookup : Nat → GameInfo} {alloc : Alloc}
    {sd : Int} :
    ∀ (sel rest : List (Nat × Nat)), ∀ x ∈ selectMoves lookup alloc sd sel rest,
      x ∈ sel ∨ x ∈ rest := by
  intro sel rest
  induction rest generalizing sel with
  | nil => intro x hx; exact Or.inl hx
  | cons dp rest ih =>
    obtain ⟨d, p⟩ := dp
    intro x hx
    rw [selectMoves] at hx
    simp only [] at hx
    split at hx
    · rcases ih sel x hx with h | h
      · exact Or.inl h
      · exact Or.inr (List.mem_cons_of_mem _ h)
    · split at hx
      · rcases List.mem_append.mp hx with h | h
        · exact Or.inl h
        · exact Or.inr (List.mem_cons.mpr (Or.inl (by simpa using h)))
      · rcases ih (sel ++ [(d, p)]) x hx with h | h
        · rcases List.mem_append.mp h with h | h
          · exact Or.inl h
          · exact Or.inr (List.mem_cons.mpr (Or.inl (by simpa using h)))
        · exact Or.inr (List.mem_cons_of_mem _ h)

/-- Tracking membership through the applied moves of `try_make_up_numbers`:
anyone seated afterwards was either already seated at that table or is one
of the moved players now seated at the target. -/
theorem mem_foldl_moves {ta : Nat} (moves : List (Nat × Nat)) (alloc : Alloc)
    {p t' : Nat}
    (h : p ∈ (moves.foldl (fun a dp => appendAt (removeAt a dp.1 dp.2) ta dp.2)
      alloc) t') :
    p ∈ alloc t' ∨ (t' = ta ∧ ∃ d, (d, p) ∈ moves) := by
  induction moves generalizing alloc with
  | nil => exact Or.inl h
  | cons dp rest ih =>
    obtain ⟨d0, p0⟩ := dp
    rcases ih _ h with h1 | ⟨rfl, d, hd⟩
    · rcases mem_appendAt.mp h1 with h2 | ⟨rfl, rfl⟩
      · exact Or.inl (mem_removeAt h2)
      · exact Or.inr ⟨rfl, d0, List.mem_cons_self _ _⟩
    · exact Or.inr ⟨rfl, d, List.mem_cons_of_mem _ hd⟩

/-- With disjoint tiers, any table of the tier at index `lh` has loss
`lh`. -/
theorem lossMapOf_getD_mem {tiers : List (List Nat)} (hnd : tiers.flatten.Nodup)
    {lh t2 t : Nat} (hl : lossMapOf tiers t = some lh)
    (ht2 : t2 ∈ tiers.getD lh []) : lossMapOf tiers t2 = some lh := by
  obtain ⟨hlt, _⟩ := lossMapOf_some_mem hl
  rw [List.getD_eq_getElem _ _ hlt] at ht2
  exact lossMapOf_of_mem_get hnd hlt (by rw [List.get_eq_getElem]; exact ht2)

/-- Any player other than the newcomer either keeps its seat or (as the
bumped incumbent) moves to a seat of identical loss. -/
theorem initial_allocate_keeps_losses {o : Oracle} (hWF : o.WF)
    {lookup : Nat → GameInfo} {orderedPrefs : Nat → List (List Nat)}
    {alloc alloc' : Alloc} {player k k' : Nat}
    (hT : ∀ p, (orderedPrefs p).flatten.Nodup)
    (hres : initial_allocate o lookup orderedPrefs alloc player k
      = .ok (alloc', true, k'))
    {h t' : Nat} (hne : h ≠ player) (hmem : h ∈ alloc' t') :
    h ∈ alloc t' ∨ ∃ t0, h ∈ alloc t0 ∧
      lossMapOf (orderedPrefs h) t' = lossMapOf (orderedPrefs h) t0 := by
  rcases initialAllocateAux_ok_true hWF hres with
    ⟨t, _, hroom, rfl⟩ | ⟨t, _, h0, hh0, lh, t2, hfull, hl, ht2, hroom, rfl⟩
  · rcases mem_appendAt.mp hmem with h1 | ⟨rfl, rfl⟩
    · exact Or.inl h1
    · exact absurd rfl hne
  · rcases mem_appendAt.mp hmem with h1 | ⟨rfl, rfl⟩
    · rcases mem_appendAt.mp h1 with h2 | ⟨rfl, rfl⟩
      · exact Or.inl (mem_removeAt h2)
      · refine Or.inr ⟨t, hh0, ?_⟩
        rw [lossMapOf_getD_mem (hT h) hl ht2, hl]
    · exact absurd rfl hne

/-- Any player moved by `try_make_up_numbers` goes to the target table it
had in its tier at its current loss, so its loss is unchanged; everyone
else keeps a previous seat. -/
theorem try_make_up_numbers_keeps_losses {o : Oracle} (hWF : o.WF)
    {lookup : Nat → GameInfo} {orderedPrefs : Nat → List (List Nat)}
    {alloc alloc' : Alloc} {ta : Nat} {donors : List Nat} {k : Nat} {b : Bool}
    {k' : Nat}
    (hT : ∀ p, (orderedPrefs p).flatten.Nodup)
    (hres : try_make_up_numbers o lookup orderedPrefs alloc ta donors k
      = .ok (alloc', b, k'))
    {p t' : Nat} (hmem : p ∈ alloc' t') :
    p ∈ alloc t' ∨ ∃ t0, p ∈ alloc t0 ∧
      lossMapOf (orderedPrefs p) t' = lossMapOf (orderedPrefs p) t0 := by
  unfold try_make_up_numbers at hres
  split at hres
  · cases hres
  case h_2 possible hscan =>
    simp only [] at hres
    split at hres
    case isTrue hfew =>
      obtain rfl : alloc = alloc' := by cases hres; rfl
      exact Or.inl hmem
    case isFalse hfew =>
      split at hres
      case isTrue hfew2 =>
        obtain rfl : alloc = alloc' := by cases hres; rfl
        exact Or.inl hmem
      case isFalse hfew2 =>
        obtain rfl :
            (selectMoves lookup alloc
              (((lookup ta).optimal_players : Int) - ((alloc ta).length : Int)) []
              (o.permPair k possible)).foldl
                (fun a dp => appendAt (removeAt a dp.1 dp.2) ta dp.2) alloc
              = alloc' := by cases hres; rfl
        rcases mem_foldl_moves _ _ hmem with h1 | ⟨rfl, d, hd⟩
        · exact Or.inl h1
        · have hd2 : (d, p) ∈ o.permPair k possible := by
            rcases selectMoves_subset _ _ _ hd with h2 | h2
            · simp at h2
            · exact h2
          have hd3 : (d, p) ∈ possible := (hWF.2.2 k possible).mem_iff.mp hd2
          obtain ⟨_, _, hpd, ld, lt, hld, hlt, _, hta⟩ := mem_scanCandidates hscan hd3
          refine Or.inr ⟨d, hpd, ?_⟩
          rw [lossMapOf_getD_mem (hT p) hld hta, hld]

/-- C3: no move ever strictly increases the loss of an already-placed
group.  In any single successful `initial_allocate` step the displaced
incumbent moves only within the loss tier it occupied (its loss is
unchanged), and every group moved by `try_make_up_numbers` ends at a
session of loss equal to the one it left, so no moved group's loss grows. -/
theorem C3_no_loss_increase :
    (∀ (o : Oracle) (lookup : Nat → GameInfo)
       (orderedPrefs : Nat → List (List Nat)) (alloc : Alloc)
       (player k : Nat) (alloc' : Alloc) (k' : Nat), o.WF →
       (∀ p, (orderedPrefs p).flatten.Nodup) →
       initial_allocate o lookup orderedPrefs alloc player k
         = .ok (alloc', true, k') →
       ∀ h t', h ≠ player → h ∈ alloc' t' →
         h ∈ alloc t' ∨ ∃ t0, h ∈ alloc t0 ∧
           lossMapOf (orderedPrefs h) t' = lossMapOf (orderedPrefs h) t0) ∧
    (∀ (o : Oracle) (lookup : Nat → GameInfo)
       (orderedPrefs : Nat → List (List Nat)) (alloc : Alloc) (ta : Nat)
       (donors : List Nat) (k : Nat) (alloc' : Alloc) (b : Bool) (k' : Nat),
       o.WF → (∀ p, (orderedPrefs p).flatten.Nodup) →
       try_make_up_numbers o lookup orderedPrefs alloc ta donors k
         = .ok (alloc', b, k') →
       ∀ p t', p ∈ alloc' t' →
         p ∈ alloc t' ∨ ∃ t0, p ∈ alloc t0 ∧
           lossMapOf (orderedPrefs p) t' = lossMapOf (orderedPrefs p) t0) :=
  ⟨fun _ _ _ _ _ _ _ _ hWF hT hres _ _ hne hmem =>
    initial_allocate_keeps_losses hWF hT hres hne hmem,
   fun _ _ _ _ _ _ _ _ _ _ hWF hT hres _ _ hmem =>
    try_make_up_numbers_keeps_losses hWF hT hres hmem⟩

/-- C3 witness: player 9 bumps incumbent 7 from the full table 1 to
table 2; the incumbent's loss is unchanged. -/
theorem C3_witness :
    7 ∈ bumpAlloc 2 ∨ ∃ t0, 7 ∈ bumpAlloc t0 ∧
      lossMapOf (bumpPrefs 7) 2 = lossMapOf (bumpPrefs 7) t0 :=
  C3_no_loss_increase.1 idOracle bumpLookup bumpPrefs bumpAlloc 9 0 _ _
    idOracle_wf
    (by intro p; unfold bumpPrefs; split <;> decide)
    rfl 7 2 (by decide) (by decide)

/-- `appendAt` at the updated table. -/
theorem appendAt_same (alloc : Alloc) (t p : Nat) :
    appendAt alloc t p t = alloc t ++ [p] := by
  simp [appendAt]

/-- `removeAt` at the updated table. -/
theorem removeAt_same (alloc : Alloc) (t p : Nat) :
    removeAt alloc t p t = (alloc t).erase p := by
  simp [removeAt]

/-- `appendAt` leaves other tables unchanged. -/
theorem appendAt_other {alloc : Alloc} {t t' p : Nat} (h : t' ≠ t) :
    appendAt alloc t p t' = alloc t' := by
  unfold appendAt; rw [if_neg h]

/-- `removeAt` leaves other tables unchanged. -/
theorem removeAt_other {alloc : Alloc} {t t' p : Nat} (h : t' ≠ t) :
    removeAt alloc t p t' = alloc t' := by
  unfold removeAt; rw [if_neg h]

/-- A successful placement never pushes any table past its maximum. -/
theorem initial_allocate_capacity {o : Oracle} (hWF : o.WF)
    {lookup : Nat → GameInfo} {orderedPrefs : Nat → List (List Nat)}
    {alloc alloc' : Alloc} {player k : Nat} {success : Bool} {k' : Nat}
    (hcap : ∀ t, (alloc t).length ≤ (lookup t).maximum_players)
    (hres : initial_allocate o lookup orderedPrefs alloc player k
      = .ok (alloc', success, k')) :
    ∀ t, (alloc' t).length ≤ (lookup t).maximum_players := by
  cases success with
  | false =>
    obtain ⟨rfl, _⟩ := initialAllocateAux_ok_false hres
    exact hcap
  | true =>
    rcases initialAllocateAux_ok_true hWF hres with
      ⟨t, _, hroom, rfl⟩ | ⟨t, _, h0, hh0, lh, t2, hfull, hl, ht2, hroom, rfl⟩
    · intro x
      by_cases hx : x = t
      · subst hx
        unfold appendAt
        rw [if_pos rfl, List.length_append]
        simp only [List.length_singleton]
        have := hcap x
        omega
      · rw [appendAt_other hx]
        exact hcap x
    · have ht2t : t2 ≠ t := by
        intro hc
        rw [hc] at hroom
        exact hfull hroom
      intro x
      by_cases hx : x = t
      · subst hx
        unfold appendAt removeAt
        rw [if_pos rfl, if_neg ht2t, if_neg (Ne.symm ht2t), if_pos rfl,
          List.length_append, List.length_erase_of_mem hh0]
        have h1 : 0 < (alloc x).length := List.length_pos_of_mem hh0
        have h2 := hcap x
        simp only [List.length_singleton]
        omega
      · by_cases hx2 : x = t2
        · subst hx2
          rw [appendAt_other hx]
          unfold appendAt
          rw [if_pos rfl, removeAt_other hx, List.length_append]
          simp only [List.length_singleton]
          omega
        · rw [appendAt_other hx, appendAt_other hx2, removeAt_other hx]
          exact hcap x

/-- The whole placement loop of a trial preserves the capacity ceiling. -/
theorem placeAllPlayers_capacity {o : Oracle} (hWF : o.WF)
    {lookup : Nat → GameInfo} {orderedPrefs : Nat → List (List Nat)}
    {trial : Nat} {players : List Nat} {k : Nat} {alloc alloc' : Alloc}
    {k' : Nat}
    (hcap : ∀ t, (alloc t).length ≤ (lookup t).maximum_players)
    (hres : placeAllPlayers o lookup orderedPrefs trial k alloc players
      = .ok (alloc', k')) :
    ∀ t, (alloc' t).length ≤ (lookup t).maximum_players := by
  induction players generalizing alloc k with
  | nil =>
    obtain rfl : alloc = alloc' := by cases hres; rfl
    exact hcap
  | cons p ps ih =>
    rw [placeAllPlayers] at hres
    split at hres
    · cases hres
    case h_2 alloc1 success k1 hstep =>
      split at hres
      case isTrue hs =>
        subst hs
        exact ih (initial_allocate_capacity hWF hcap hstep) hres
      case isFalse hs => cases hres

/-- The shape of a successful `try_make_up_numbers`: the scan succeeded,
at least `minimum_deficit` moves were selected, and the moves were applied
in selection order. -/
theorem try_make_up_numbers_ok_true {o : Oracle}
    {lookup : Nat → GameInfo} {orderedPrefs : Nat → List (List Nat)}
    {alloc alloc' : Alloc} {ta : Nat} {donors : List Nat} {k k' : Nat}
    (hres : try_make_up_numbers o lookup orderedPrefs alloc ta donors k
      = .ok (alloc', true, k')) :
    ∃ possible,
      scanCandidates orderedPrefs alloc ta donors = .ok possible ∧
      ¬ (((selectMoves lookup alloc
            (((lookup ta).optimal_players : Int) - ((alloc ta).length : Int)) []
            (o.permPair k possible)).length : Int)
          < ((lookup ta).minimum_players : Int) - ((alloc ta).length : Int)) ∧
      alloc' = (selectMoves lookup alloc
          (((lookup ta).optimal_players : Int) - ((alloc ta).length : Int)) []
          (o.permPair k possible)).foldl
        (fun a dp => appendAt (removeAt a dp.1 dp.2) ta dp.2) alloc := by
  unfold try_make_up_numbers at hres
  split at hres
  · cases hres
  case h_2 possible hscan =>
    simp only [] at hres
    split at hres
    case isTrue hfew => cases hres
    case isFalse hfew =>
      split at hres
      case isTrue hfew2 => cases hres
      case isFalse hfew2 =>
        refine ⟨possible, hscan, hfew2, ?_⟩
        cases hres; rfl

/-- A failed `try_make_up_numbers` leaves the allocation untouched. -/
theorem try_make_up_numbers_ok_false {o : Oracle}
    {lookup : Nat → GameInfo} {orderedPrefs : Nat → List (List Nat)}
    {alloc alloc' : Alloc} {ta : Nat} {donors : List Nat} {k k' : Nat}
    (hres : try_make_up_numbers o lookup orderedPrefs alloc ta donors k
      = .ok (alloc', false, k')) : alloc' = alloc := by
  unfold try_make_up_numbers at hres
  split at hres
  · cases hres
  case h_2 possible hscan =>
    simp only [] at hres
    split at hres
    case isTrue hfew => cases hres; rfl
    case isFalse hfew =>
      split at hres
      case isTrue hfew2 => cases hres; rfl
      case isFalse hfew2 => cases hres

/-- The greedy selection never selects more than `sweetspot_deficit` moves
(when that deficit is positive). -/
theorem selectMoves_length_le {lookup : Nat → GameInfo} {alloc : Alloc}
    {sd : Int} :
    ∀ (sel rest : List (Nat × Nat)), ((sel.length : Int) < sd) →
      (((selectMoves lookup alloc sd sel rest).length : Int)) ≤ sd := by
  intro sel rest
  induction rest generalizing sel with
  | nil =>
    intro h
    rw [selectMoves]
    omega
  | cons dp rest ih =>
    obtain ⟨d, p⟩ := dp
    intro h
    rw [selectMoves]
    simp only []
    split
    · exact ih sel h
    · split
      case isTrue heq => omega
      case isFalse heq =>
      · refine ih (sel ++ [(d, p)]) ?_
        rw [List.length_append] at heq ⊢
        simp only [List.length_singleton] at heq ⊢
        omega

/-- Applying the selected moves adds exactly one player per move to the
target table (every donor is a different table). -/
theorem foldl_moves_length_target {ta : Nat} (moves : List (Nat × Nat))
    (alloc : Alloc) (hne : ∀ dp ∈ moves, dp.1 ≠ ta) :
    ((moves.foldl (fun a dp => appendAt (removeAt a dp.1 dp.2) ta dp.2)
      alloc) ta).length = (alloc ta).length + moves.length := by
  induction moves generalizing alloc with
  | nil => rfl
  | cons dp rest ih =>
    obtain ⟨d0, p0⟩ := dp
    rw [List.foldl_cons, ih _ (fun dp hdp => hne dp (List.mem_cons_of_mem _ hdp))]
    have hd0 : d0 ≠ ta := hne (d0, p0) (List.mem_cons_self _ _)
    show ((appendAt (removeAt alloc d0 p0) ta p0) ta).length + rest.length = _
    rw [appendAt_same, removeAt_other (Ne.symm hd0)]
    simp only [List.length_append, List.length_cons, List.length_singleton,
      List.length_nil]
    omega

/-- Applying the selected moves never grows any table other than the
target. -/
theorem foldl_moves_length_other {ta : Nat} (moves : List (Nat × Nat))
    (alloc : Alloc) {t : Nat} (hne : t ≠ ta) :
    ((moves.foldl (fun a dp => appendAt (removeAt a dp.1 dp.2) ta dp.2)
      alloc) t).length ≤ (alloc t).length := by
  induction moves generalizing alloc with
  | nil => exact le_refl _
  | cons dp rest ih =>
    obtain ⟨d0, p0⟩ := dp
    refine le_trans (ih _) ?_
    show ((appendAt (removeAt alloc d0 p0) ta p0) t).length ≤ (alloc t).length
    rw [appendAt_other hne]
    by_cases htd : t = d0
    · subst htd
      rw [removeAt_same]
      exact (List.erase_sublist _ _).length_le
    · rw [removeAt_other htd]

/-- The selected moves all leave tables different from the target. -/
theorem selectMoves_targets_ne {o : Oracle} (hWF : o.WF)
    {lookup : Nat → GameInfo} {orderedPrefs : Nat → List (List Nat)}
    {alloc : Alloc} {ta : Nat} {donors : List Nat} {possible : List (Nat × Nat)}
    (hscan : scanCandidates orderedPrefs alloc ta donors = .ok possible)
    {sd : Int} {k : Nat} :
    ∀ dp ∈ selectMoves lookup alloc sd [] (o.permPair k possible), dp.1 ≠ ta := by
  intro dp hdp
  obtain ⟨d, p⟩ := dp
  have h2 : (d, p) ∈ o.permPair k possible := by
    rcases selectMoves_subset _ _ _ hdp with h | h
    · simp at h
    · exact h
  have h3 : (d, p) ∈ possible := (hWF.2.2 k possible).mem_iff.mp h2
  exact (mem_scanCandidates hscan h3).2.1

/-- A repair attempt (successful or not) keeps every table within its
maximum, provided the target is under-minimum and its capacity triple is
ordered. -/
theorem try_make_up_numbers_capacity {o : Oracle} (hWF : o.WF)
    {lookup : Nat → GameInfo} {orderedPrefs : Nat → List (List Nat)}
    {alloc alloc' : Alloc} {ta : Nat} {donors : List Nat} {k : Nat} {b : Bool}
    {k' : Nat}
    (hcap : ∀ t, (alloc t).length ≤ (lookup t).maximum_players)
    (hmin : (alloc ta).length < (lookup ta).minimum_players)
    (hmo : (lookup ta).minimum_players ≤ (lookup ta).optimal_players)
    (hom : (lookup ta).optimal_players ≤ (lookup ta).maximum_players)
    (hres : try_make_up_numbers o lookup orderedPrefs alloc ta donors k
      = .ok (alloc', b, k')) :
    ∀ t, (alloc' t).length ≤ (lookup t).maximum_players := by
  cases b with
  | false => rw [try_make_up_numbers_ok_false hres]; exact hcap
  | true =>
    obtain ⟨possible, hscan, hmany, rfl⟩ := try_make_up_numbers_ok_true hres
    have hne := @selectMoves_targets_ne o hWF lookup orderedPrefs alloc ta donors
      possible hscan (((lookup ta).optimal_players : Int) - ((alloc ta).length : Int)) k
    have hub := @selectMoves_length_le lookup alloc
      (((lookup ta).optimal_players : Int) - ((alloc ta).length : Int))
      [] (o.permPair k possible)
      (by simp only [List.length_nil, Nat.cast_zero]; omega)
    intro t
    by_cases ht : t = ta
    · subst ht
      rw [foldl_moves_length_target _ _ hne]
      omega
    · exact le_trans (foldl_moves_length_other _ _ ht) (hcap t)

/-- C9: whenever `try_make_up_numbers` succeeds on an under-minimum table
whose capacity triple is ordered, the table's final load lies between its
minimum and its optimal (sweet spot) inclusive: at least `minimum_deficit`
players were moved in, and selection stopped at `sweetspot_deficit`. -/
theorem C9_repair_lands_between_min_and_optimal {o : Oracle} (hWF : o.WF)
    (lookup : Nat → GameInfo) (orderedPrefs : Nat → List (List Nat))
    (alloc : Alloc) (ta : Nat) (donors : List Nat) (k : Nat) (alloc' : Alloc)
    (k' : Nat)
    (hmin : (alloc ta).length < (lookup ta).minimum_players)
    (hmo : (lookup ta).minimum_players ≤ (lookup ta).optimal_players)
    (hres : try_make_up_numbers o lookup orderedPrefs alloc ta donors k
      = .ok (alloc', true, k')) :
    (lookup ta).minimum_players ≤ (alloc' ta).length ∧
      (alloc' ta).length ≤ (lookup ta).optimal_players := by
  obtain ⟨possible, hscan, hmany, rfl⟩ := try_make_up_numbers_ok_true hres
  have hne := @selectMoves_targets_ne o hWF lookup orderedPrefs alloc ta donors
    possible hscan (((lookup ta).optimal_players : Int) - ((alloc ta).length : Int)) k
  have hub := @selectMoves_length_le lookup alloc
    (((lookup ta).optimal_players : Int) - ((alloc ta).length : Int))
    [] (o.permPair k possible)
    (by simp only [List.length_nil, Nat.cast_zero]; omega)
  rw [foldl_moves_length_target _ _ hne]
  omega

/-- C9 witness: repairing empty table 1 (min 2, optimal 2) from donor
table 2 moves exactly two of its three players in. -/
theorem C9_witness :
    (match try_make_up_numbers idOracle repLookup repPrefs repAlloc 1 [2] 0 with
      | .ok (alloc', _, _) =>
        (repLookup 1).minimum_players ≤ (alloc' 1).length ∧
          (alloc' 1).length ≤ (repLookup 1).optimal_players
      | .error _ => False) :=
  C9_repair_lands_between_min_and_optimal idOracle_wf repLookup repPrefs
    repAlloc 1 [2] 0 _ _ (by decide) (by decide) rfl

/-- A donor-table scan hits a `KeyError` as soon as some scanned player
has no loss entry for the target table. -/
theorem scanPlayersAtDonor_error {orderedPrefs : Nat → List (List Nat)}
    {ta d : Nat} {ps : List Nat}
    (h : ∃ p ∈ ps, lossMapOf (orderedPrefs p) ta = none) :
    scanPlayersAtDonor orderedPrefs ta d ps = .error .keyError := by
  induction ps with
  | nil => simp at h
  | cons p0 ps ih =>
    obtain ⟨p, hp, hnone⟩ := h
    rcases List.mem_cons.mp hp with rfl | hp'
    · cases hld : lossMapOf (orderedPrefs p) d with
      | none => simp [scanPlayersAtDonor, hld]
      | some ld => simp [scanPlayersAtDonor, hld, hnone]
    · have ihe := ih ⟨p, hp', hnone⟩
      rw [scanPlayersAtDonor]
      split
      · rfl
      · split
        · rfl
        · split
          · exact ihe
          · split
            · rw [ihe]
            · exact ihe

/-- The only error a donor-table scan can produce is `KeyError`. -/
theorem scanPlayersAtDonor_error_eq {orderedPrefs : Nat → List (List Nat)}
    {ta d : Nat} {ps : List Nat} {e : PyErr}
    (h : scanPlayersAtDonor orderedPrefs ta d ps = .error e) : e = .keyError := by
  induction ps with
  | nil => cases h
  | cons p0 ps ih =>
    rw [scanPlayersAtDonor] at h
    split at h
    · cases h; rfl
    · split at h
      · cases h; rfl
      · split at h
        · exact ih h
        · split at h
          · split at h
            · cases h
              exact ih (by assumption)
            · cases h
          · exact ih h

/-- The full candidate scan hits a `KeyError` as soon as some player at a
donor table (other than the target) has no loss entry for the target. -/
theorem scanCandidates_error {orderedPrefs : Nat → List (List Nat)}
    {alloc : Alloc} {ta : Nat} {donors : List Nat}
    (h : ∃ d ∈ donors, d ≠ ta ∧ ∃ p ∈ alloc d, lossMapOf (orderedPrefs p) ta = none) :
    scanCandidates orderedPrefs alloc ta donors = .error .keyError := by
  induction donors with
  | nil => simp at h
  | cons d0 ds ih =>
    obtain ⟨d, hd, hne, p, hp, hnone⟩ := h
    rw [scanCandidates]
    rcases List.mem_cons.mp hd with rfl | hd'
    · rw [if_neg hne, scanPlayersAtDonor_error ⟨p, hp, hnone⟩]
    · have ihe := ih ⟨d, hd', hne, p, hp, hnone⟩
      by_cases h0 : d0 = ta
      · rw [if_pos h0]
        exact ihe
      · rw [if_neg h0]
        split
        next e heq =>
          rw [scanPlayersAtDonor_error_eq heq]
        next here heq =>
          rw [ihe]

/-- A donor-table scan is total when every scanned player has loss entries
for both its current table and the target. -/
theorem scanPlayersAtDonor_total {orderedPrefs : Nat → List (List Nat)}
    {ta d : Nat} {ps : List Nat}
    (h : ∀ p ∈ ps, lossMapOf (orderedPrefs p) d ≠ none ∧
      lossMapOf (orderedPrefs p) ta ≠ none) :
    ∃ res, scanPlayersAtDonor orderedPrefs ta d ps = .ok res := by
  induction ps with
  | nil => exact ⟨[], rfl⟩
  | cons p0 ps ih =>
    obtain ⟨h1, h2⟩ := h p0 (List.mem_cons_self _ _)
    obtain ⟨res, hres⟩ := ih (fun p hp => h p (List.mem_cons_of_mem _ hp))
    cases hld : lossMapOf (orderedPrefs p0) d with
    | none => exact absurd hld h1
    | some ld =>
      cases hlt : lossMapOf (orderedPrefs p0) ta with
      | none => exact absurd hlt h2
      | some lt =>
        simp only [scanPlayersAtDonor, hld, hlt]
        by_cases hc : lt < ld
        · rw [if_pos hc]
          exact ⟨res, hres⟩
        · rw [if_neg hc]
          by_cases hm : ta ∈ (orderedPrefs p0).getD ld []
          · rw [if_pos hm, hres]
            exact ⟨(d, p0) :: res, rfl⟩
          · rw [if_neg hm]
            exact ⟨res, hres⟩

/-- The full candidate scan is total when every player at every donor
other than the target has loss entries for its table and the target. -/
theorem scanCandidates_total {orderedPrefs : Nat → List (List Nat)}
    {alloc : Alloc} {ta : Nat} {donors : List Nat}
    (h : ∀ d ∈ donors, d ≠ ta → ∀ p ∈ alloc d,
      lossMapOf (orderedPrefs p) d ≠ none ∧ lossMapOf (orderedPrefs p) ta ≠ none) :
    ∃ res, scanCandidates orderedPrefs alloc ta donors = .ok res := by
  induction donors with
  | nil => exact ⟨[], rfl⟩
  | cons d0 ds ih =>
    obtain ⟨res, hres⟩ := ih (fun d hd => h d (List.mem_cons_of_mem _ hd))
    rw [scanCandidates]
    by_cases h0 : d0 = ta
    · rw [if_pos h0]
      exact ⟨res, hres⟩
    · rw [if_neg h0]
      obtain ⟨here, hhere⟩ := scanPlayersAtDonor_total
        (h d0 (List.mem_cons_self _ _) h0)
      rw [hhere, hres]
      exact ⟨here ++ res, rfl⟩

/-- C10: the capacity-repair candidate scan is total only when every
player seated at a scanned donor table has a loss entry for the target
table.  If any player at a donor (other than the target itself) lacks the
entry, the scan's `loss_by_player_and_table[...][ta_id]` lookup raises
`KeyError` (which `try_make_up_numbers` propagates) instead of skipping
the player; with all entries present (including each player's entry for
its own table) the scan returns normally. -/
theorem C10_scan_keyerror :
    (∀ (orderedPrefs : Nat → List (List Nat)) (alloc : Alloc) (ta : Nat)
       (donors : List Nat),
       (∃ d ∈ donors, d ≠ ta ∧ ∃ p ∈ alloc d,
         lossMapOf (orderedPrefs p) ta = none) →
       scanCandidates orderedPrefs alloc ta donors = .error .keyError ∧
       ∀ (o : Oracle) (lookup : Nat → GameInfo) (k : Nat),
         try_make_up_numbers o lookup orderedPrefs alloc ta donors k
           = .error .keyError) ∧
    (∀ (orderedPrefs : Nat → List (List Nat)) (alloc : Alloc) (ta : Nat)
       (donors : List Nat),
       (∀ d ∈ donors, d ≠ ta → ∀ p ∈ alloc d,
         lossMapOf (orderedPrefs p) d ≠ none ∧
         lossMapOf (orderedPrefs p) ta ≠ none) →
       ∃ res, scanCandidates orderedPrefs alloc ta donors = .ok res) := by
  constructor
  · intro orderedPrefs alloc ta donors h
    have he := scanCandidates_error h
    refine ⟨he, ?_⟩
    intro o lookup k
    unfold try_make_up_numbers
    rw [he]
  · intro orderedPrefs alloc ta donors h
    exact scanCandidates_total h

/-- C10 witness: player 6 at donor table 2 has no entry for target
table 1, so the scan raises `KeyError`. -/
theorem C10_witness :
    scanCandidates repPrefsHole repAlloc 1 [2] = .error .keyError ∧
      ∀ (o : Oracle) (lookup : Nat → GameInfo) (k : Nat),
        try_make_up_numbers o lookup repPrefsHole repAlloc 1 [2] k
          = .error .keyError :=
  C10_scan_keyerror.1 repPrefsHole repAlloc 1 [2]
    ⟨2, by decide, by decide, 6, by decide, by decide⟩

/-- C1 counterexample: with one table `(1, 1, 1)` and two players who both
want only that table, the first trial's `initial_allocate` failure raises
`ValueError` immediately — the error reaches the caller tagged with
trial 1 even though `n_trials = 10` trials were requested; nothing akin to
`NoFeasibleAllocation` is ever produced. -/
theorem C1_counterexample :
    allocate idOracle tinyInput = .error (.failedToAllocatePlayer 8 1) ∧
      1 < n_trials :=
  ⟨rfl, by decide⟩

/-- Unfolding the trial loop at zero remaining trials. -/
theorem runTrialsAux_zero (o : Oracle) (lookup : Nat → GameInfo)
    (opl : List (Nat × List (List Nat))) (tables : List (Nat × GameInfo))
    (playerIds : List Nat) (trial k : Nat) (best : Option (Nat × Alloc))
    (recs : List TrialOutcome) :
    runTrialsAux o lookup opl tables playerIds trial 0 k best recs
      = match best with
        | some (bl, ba) => .ok ⟨bl, ba, recs⟩
        | none => .error .assertionError := rfl

/-- Unfolding one iteration of the trial loop. -/
theorem runTrialsAux_succ (o : Oracle) (lookup : Nat → GameInfo)
    (opl : List (Nat × List (List Nat))) (tables : List (Nat × GameInfo))
    (playerIds : List Nat) (trial remaining k : Nat)
    (best : Option (Nat × Alloc)) (recs : List TrialOutcome) :
    runTrialsAux o lookup opl tables playerIds trial (remaining + 1) k best recs
      = match runOneTrial o lookup (orderedPrefsFun opl) tables playerIds trial k with
        | .error e => .error e
        | .ok (alloc, loss, k') =>
          runTrialsAux o lookup opl tables playerIds (trial + 1) remaining k'
            (match best with
              | none => some (loss, alloc)
              | some (bl, ba) =>
                if loss < bl then some (loss, alloc) else some (bl, ba))
            (recs ++ [⟨opl, loss⟩]) := rfl

/-- C1 amended: a per-trial failure (from placement, the capacity assert,
repair, or evaluation) is raised immediately: the driver loop propagates
the trial's error as the run's result without attempting any further
trial. -/
theorem C1_amended_first_failure_aborts (o : Oracle) (lookup : Nat → GameInfo)
    (opl : List (Nat × List (List Nat))) (tables : List (Nat × GameInfo))
    (playerIds : List Nat) (trial remaining k : Nat)
    (best : Option (Nat × Alloc)) (recs : List TrialOutcome) (e : PyErr)
    (h : runOneTrial o lookup (orderedPrefsFun opl) tables playerIds trial k
      = .error e) :
    runTrialsAux o lookup opl tables playerIds trial (remaining + 1) k best recs
      = .error e := by
  rw [runTrialsAux_succ, h]

/-- C1 witness: the driver loop at trial 1 with 9 trials still to spare
surfaces the trial-1 placement failure directly. -/
theorem C1_witness :
    runTrialsAux idOracle (lookupTable tinyInput.tables)
      (buildOrderedPrefs idOracle 0 tinyInput.prefsByPlayer).1 tinyInput.tables
      [7, 8] 1 10 (buildOrderedPrefs idOracle 0 tinyInput.prefsByPlayer).2 none []
      = .error (.failedToAllocatePlayer 8 1) :=
  C1_amended_first_failure_aborts idOracle (lookupTable tinyInput.tables)
    (buildOrderedPrefs idOracle 0 tinyInput.prefsByPlayer).1 tinyInput.tables
    [7, 8] 1 9 (buildOrderedPrefs idOracle 0 tinyInput.prefsByPlayer).2 none []
    (.failedToAllocatePlayer 8 1) rfl

/-- C6 counterexample: with one player holding two equal-score preferences
and an oracle whose very first sample is the identity but whose every
later sample reverses, all ten trials of the run walk the player's single
tier in the same `[1, 2]` order (the one fixed before the trial loop),
although a rebuild from the random stream at any later point — as the
claim describes — would give `[2, 1]`. -/
theorem C6_counterexample :
    (allocate twinOracle twinInput).map
      (fun r => r.trials.map TrialOutcome.tiersUsed)
      = .ok (List.replicate 10 [(5, [[1, 2]])]) ∧
    (order_preferences_for_player twinOracle 1 [⟨1, 3⟩, ⟨2, 3⟩]).1 = [[2, 1]] :=
  ⟨rfl, by decide⟩

/-- Helper: every record accumulated by the trial loop carries the one
tier list built before the loop. -/
theorem runTrialsAux_tiersUsed {o : Oracle} {lookup : Nat → GameInfo}
    {opl : List (Nat × List (List Nat))} {tables : List (Nat × GameInfo)}
    {playerIds : List Nat} :
    ∀ (remaining trial k : Nat) (best : Option (Nat × Alloc))
      (recs : List TrialOutcome) (res : RunResult),
      (∀ rec ∈ recs, rec.tiersUsed = opl) →
      runTrialsAux o lookup opl tables playerIds trial remaining k best recs
        = .ok res →
      ∀ rec ∈ res.trials, rec.tiersUsed = opl := by
  intro remaining
  induction remaining with
  | zero =>
    intro trial k best recs res hrecs hres
    rw [runTrialsAux_zero] at hres
    cases best with
    | none => cases hres
    | some b =>
      obtain ⟨bl, ba⟩ := b
      obtain rfl : ({ bestLoss := bl, bestAlloc := ba, trials := recs } : RunResult)
          = res := by cases hres; rfl
      exact hrecs
  | succ remaining ih =>
    intro trial k best recs res hrecs hres
    rw [runTrialsAux_succ] at hres
    split at hres
    · cases hres
    case h_2 alloc loss k1 htrial =>
      refine ih (trial + 1) k1 _ _ res ?_ hres
      intro rec hrec
      rcases List.mem_append.mp hrec with hrec | hrec
      · exact hrecs rec hrec
      · rw [List.mem_singleton.mp hrec]

/-- C6 amended: the per-group tier randomization is built exactly once,
before the trial loop; every trial of the run uses that same tier
ordering (only the player order and the in-pass samples draw fresh
randomness per trial). -/
theorem C6_amended_tiers_built_once (o : Oracle) (input : AllocatorInput)
    (res : RunResult) (h : allocate o input = .ok res) :
    ∀ rec ∈ res.trials,
      rec.tiersUsed = (buildOrderedPrefs o 0 input.prefsByPlayer).1 :=
  runTrialsAux_tiersUsed n_trials 1 (buildOrderedPrefs o 0 input.prefsByPlayer).2
    none [] res (by simp) h

/-- C6 witness: the record of the concrete run's first trial carries the
pre-built tier list. -/
theorem C6_witness :
    (⟨[(5, [[1, 2]])], 0⟩ : TrialOutcome).tiersUsed
      = (buildOrderedPrefs twinOracle 0 twinInput.prefsByPlayer).1 :=
  C6_amended_tiers_built_once twinOracle twinInput _ rfl
    ⟨[(5, [[1, 2]])], 0⟩ (by decide)

/-- With distinct table ids, `table_allocation_lookup` returns each
table's own capacity data. -/
theorem lookupTable_eq {tables : List (Nat × GameInfo)}
    (hnd : (tables.map Prod.fst).Nodup) {t : Nat} {gi : GameInfo}
    (h : (t, gi) ∈ tables) : lookupTable tables t = gi := by
  induction tables with
  | nil => simp at h
  | cons tg rest ih =>
    obtain ⟨t0, gi0⟩ := tg
    rw [List.map_cons, List.nodup_cons] at hnd
    rcases List.mem_cons.mp h with heq | hmem
    · obtain ⟨rfl, rfl⟩ : t0 = t ∧ gi0 = gi := by
        constructor <;> · cases heq; rfl
      unfold lookupTable
      rw [List.find?_cons_of_pos _ (by simp)]
      rfl
    · have hne : t0 ≠ t := by
        intro hc
        exact hnd.1 (hc ▸ List.mem_map.mpr ⟨(t, gi), hmem, rfl⟩)
      unfold lookupTable
      rw [List.find?_cons_of_neg _ (by simp [hne])]
      exact ih hnd.2 hmem

/-- Applying the selected moves leaves untouched any table that is neither
the target nor one of the moves' source tables. -/
theorem foldl_moves_untouched {ta : Nat} (moves : List (Nat × Nat))
    (alloc : Alloc) {t' : Nat} (hne : t' ≠ ta)
    (h : ∀ dp ∈ moves, dp.1 ≠ t') :
    (moves.foldl (fun a dp => appendAt (removeAt a dp.1 dp.2) ta dp.2) alloc) t'
      = alloc t' := by
  induction moves generalizing alloc with
  | nil => rfl
  | cons dp rest ih =>
    obtain ⟨d0, p0⟩ := dp
    rw [List.foldl_cons, ih _ (fun x hx => h x (List.mem_cons_of_mem _ hx))]
    show (appendAt (removeAt alloc d0 p0) ta p0) t' = alloc t'
    rw [appendAt_other hne,
      removeAt_other (Ne.symm (h (d0, p0) (List.mem_cons_self _ _)))]

/-- A repair attempt does not change tables other than the target and the
scanned donors. -/
theorem try_make_up_numbers_untouched {o : Oracle} (hWF : o.WF)
    {lookup : Nat → GameInfo} {orderedPrefs : Nat → List (List Nat)}
    {alloc alloc' : Alloc} {ta : Nat} {donors : List Nat} {k : Nat} {b : Bool}
    {k' : Nat}
    (hres : try_make_up_numbers o lookup orderedPrefs alloc ta donors k
      = .ok (alloc', b, k'))
    {t' : Nat} (hnt : t' ≠ ta) (hnd : t' ∉ donors) : alloc' t' = alloc t' := by
  cases b with
  | false => rw [try_make_up_numbers_ok_false hres]
  | true =>
    obtain ⟨possible, hscan, hmany, rfl⟩ := try_make_up_numbers_ok_true hres
    refine foldl_moves_untouched _ _ hnt ?_
    intro dp hdp
    obtain ⟨d, p⟩ := dp
    have h2 : (d, p) ∈ o.permPair k possible := by
      rcases selectMoves_subset _ _ _ hdp with h | h
      · simp at h
      · exact h
    have h3 : (d, p) ∈ possible := (hWF.2.2 k possible).mem_iff.mp h2
    intro hc
    exact hnd (hc ▸ (mem_scanCandidates hscan h3).1)

/-- The repair loop of a trial preserves the capacity ceiling: every
target table ends at most at its optimal (hence maximum) and the other
under-minimum tables are untouched until their own turn. -/
theorem repairAll_capacity {o : Oracle} (hWF : o.WF)
    {lookup : Nat → GameInfo} {orderedPrefs : Nat → List (List Nat)}
    {tables : List (Nat × GameInfo)} {trial : Nat} :
    ∀ (tf : List Nat) (alloc : Alloc) (k : Nat) (alloc' : Alloc) (k' : Nat),
    (∀ t, (alloc t).length ≤ (lookup t).maximum_players) →
    (∀ ta ∈ tf, (alloc ta).length < (lookup ta).minimum_players) →
    (∀ ta ∈ tf, (lookup ta).minimum_players ≤ (lookup ta).optimal_players ∧
      (lookup ta).optimal_players ≤ (lookup ta).maximum_players) →
    tf.Nodup →
    (∀ tg ∈ tables, lookup tg.1 = tg.2) →
    repairAll o lookup orderedPrefs tables trial k alloc tf = .ok (alloc', k') →
    ∀ t, (alloc' t).length ≤ (lookup t).maximum_players := by
  intro tf
  induction tf with
  | nil =>
    intro alloc k alloc' k' hcap _ _ _ _ hres
    obtain rfl : alloc = alloc' := by cases hres; rfl
    exact hcap
  | cons ta0 rest ih =>
    intro alloc k alloc' k' hcap hmin hord hnd hcoh hres
    rw [repairAll] at hres
    split at hres
    · cases hres
    case h_2 alloc1 success k1 hstep =>
      split at hres
      case isFalse hs => cases hres
      case isTrue hs =>
        subst hs
        rw [List.nodup_cons] at hnd
        have hcap1 : ∀ t, (alloc1 t).length ≤ (lookup t).maximum_players :=
          try_make_up_numbers_capacity hWF hcap
            (hmin ta0 (List.mem_cons_self _ _))
            (hord ta0 (List.mem_cons_self _ _)).1
            (hord ta0 (List.mem_cons_self _ _)).2 hstep
        refine ih alloc1 k1 alloc' k' hcap1 ?_
          (fun ta hta => hord ta (List.mem_cons_of_mem _ hta)) hnd.2 hcoh hres
        intro ta hta
        have hne : ta ≠ ta0 := fun hc => hnd.1 (hc ▸ hta)
        have hnotdon : ta ∉ (tables.filter
            (fun tg => tg.2.optimal_players < (alloc tg.1).length)).map
              (fun tg => tg.1) := by
          intro hc
          obtain ⟨tg, htg, htgeq⟩ := List.mem_map.mp hc
          rw [List.mem_filter] at htg
          have := hcoh tg htg.1
          have hlt : tg.2.optimal_players < (alloc tg.1).length := by
            simpa using htg.2
          have hm := hmin ta (List.mem_cons_of_mem _ hta)
          have ho := (hord ta (List.mem_cons_of_mem _ hta)).1
          rw [htgeq] at this hlt
          rw [← this] at hlt
          omega
        rw [try_make_up_numbers_untouched hWF hstep hne hnotdon]
        exact hmin ta (List.mem_cons_of_mem _ hta)

/-- One entire trial keeps every table within its maximum capacity. -/
theorem runOneTrial_capacity {o : Oracle} (hWF : o.WF)
    {lookup : Nat → GameInfo} {orderedPrefs : Nat → List (List Nat)}
    {tables : List (Nat × GameInfo)} {playerIds : List Nat} {trial k : Nat}
    {alloc2 : Alloc} {loss k2 : Nat}
    (hcoh : ∀ tg ∈ tables, lookup tg.1 = tg.2)
    (hord : ∀ tg ∈ tables, tg.2.minimum_players ≤ tg.2.optimal_players ∧
      tg.2.optimal_players ≤ tg.2.maximum_players)
    (hnd : (tables.map Prod.fst).Nodup)
    (hres : runOneTrial o lookup orderedPrefs tables playerIds trial k
      = .ok (alloc2, loss, k2)) :
    ∀ t, (alloc2 t).length ≤ (lookup t).maximum_players := by
  unfold runOneTrial at hres
  simp only [] at hres
  split at hres
  · cases hres
  case h_2 alloc1 k1 hplace =>
    have hcap1 : ∀ t, (alloc1 t).length ≤ (lookup t).maximum_players :=
      placeAllPlayers_capacity hWF (by intro t; simp) hplace
    split at hres
    case isFalse hass => cases hres
    case isTrue hass =>
      split at hres
      · cases hres
      case h_2 alloc3 k3 hrepair =>
        split at hres
        · cases hres
        case h_2 loss0 heval =>
          obtain ⟨rfl, rfl, rfl⟩ : alloc3 = alloc2 ∧ loss0 = loss ∧ k3 = k2 := by
            refine ⟨?_, ?_, ?_⟩ <;> · cases hres; rfl
          refine repairAll_capacity hWF _ alloc1 k1 alloc3 k3 hcap1 ?_ ?_ ?_ hcoh hrepair
          · intro ta hta
            obtain ⟨tg, htg, htgeq⟩ := List.mem_map.mp hta
            rw [List.mem_filter] at htg
            have hc := hcoh tg htg.1
            have hlt : (alloc1 tg.1).length < tg.2.minimum_players := by
              simpa using htg.2
            rw [htgeq] at hc hlt
            rw [hc]
            exact hlt
          · intro ta hta
            obtain ⟨tg, htg, htgeq⟩ := List.mem_map.mp hta
            rw [List.mem_filter] at htg
            have hc := hcoh tg htg.1
            rw [htgeq] at hc
            rw [hc]
            exact hord tg htg.1
          · exact ((List.filter_sublist _).map _).nodup hnd

/-- Every allocation the trial loop can retain as best satisfies the
capacity ceiling. -/
theorem runTrialsAux_capacity {o : Oracle} (hWF : o.WF)
    {lookup : Nat → GameInfo} {opl : List (Nat × List (List Nat))}
    {tables : List (Nat × GameInfo)} {playerIds : List Nat}
    (hcoh : ∀ tg ∈ tables, lookup tg.1 = tg.2)
    (hord : ∀ tg ∈ tables, tg.2.minimum_players ≤ tg.2.optimal_players ∧
      tg.2.optimal_players ≤ tg.2.maximum_players)
    (hnd : (tables.map Prod.fst).Nodup) :
    ∀ (remaining trial k : Nat) (best : Option (Nat × Alloc))
      (recs : List TrialOutcome) (res : RunResult),
      (∀ bl ba, best = some (bl, ba) →
        ∀ t, (ba t).length ≤ (lookup t).maximum_players) →
      runTrialsAux o lookup opl tables playerIds trial remaining k best recs
        = .ok res →
      ∀ t, (res.bestAlloc t).length ≤ (lookup t).maximum_players := by
  intro remaining
  induction remaining with
  | zero =>
    intro trial k best recs res hbest hres
    rw [runTrialsAux_zero] at hres
    cases best with
    | none => cases hres
    | some b =>
      obtain ⟨bl, ba⟩ := b
      obtain rfl : ({ bestLoss := bl, bestAlloc := ba, trials := recs } : RunResult)
          = res := by cases hres; rfl
      exact hbest bl ba rfl
  | succ remaining ih =>
    intro trial k best recs res hbest hres
    rw [runTrialsAux_succ] at hres
    split at hres
    · cases hres
    case h_2 alloc loss k1 htrial =>
      have hcapt := runOneTrial_capacity hWF hcoh hord hnd htrial
      refine ih (trial + 1) k1 _ _ res ?_ hres
      intro bl ba hba
      cases best with
      | none =>
        obtain ⟨rfl, rfl⟩ : loss = bl ∧ alloc = ba := by
          constructor <;> · cases hba; rfl
        exact hcapt
      | some b =>
        obtain ⟨bl0, ba0⟩ := b
        simp only [] at hba
        split at hba
        · obtain ⟨rfl, rfl⟩ : loss = bl ∧ alloc = ba := by
            constructor <;> · cases hba; rfl
          exact hcapt
        · obtain ⟨rfl, rfl⟩ : bl0 = bl ∧ ba0 = ba := by
            constructor <;> · cases hba; rfl
          exact hbest _ _ rfl

/-- C4: for inputs satisfying the capacity contract, every session's load
stays at or below the session's maximum: after every successful
`placeAllPlayers` (InitialPlacement over a trial's players), after every
`try_make_up_numbers` on an under-minimum session, and in the run's final
retained allocation. -/
theorem C4_capacity_ceiling :
    (∀ (o : Oracle) (lookup : Nat → GameInfo)
       (orderedPrefs : Nat → List (List Nat)) (trial k : Nat)
       (players : List Nat) (alloc alloc' : Alloc) (k' : Nat), o.WF →
       (∀ t, (alloc t).length ≤ (lookup t).maximum_players) →
       placeAllPlayers o lookup orderedPrefs trial k alloc players
         = .ok (alloc', k') →
       ∀ t, (alloc' t).length ≤ (lookup t).maximum_players) ∧
    (∀ (o : Oracle) (lookup : Nat → GameInfo)
       (orderedPrefs : Nat → List (List Nat)) (alloc alloc' : Alloc)
       (ta : Nat) (donors : List Nat) (k : Nat) (b : Bool) (k' : Nat), o.WF →
       (∀ t, (alloc t).length ≤ (lookup t).maximum_players) →
       (alloc ta).length < (lookup ta).minimum_players →
       (lookup ta).minimum_players ≤ (lookup ta).optimal_players →
       (lookup ta).optimal_players ≤ (lookup ta).maximum_players →
       try_make_up_numbers o lookup orderedPrefs alloc ta donors k
         = .ok (alloc', b, k') →
       ∀ t, (alloc' t).length ≤ (lookup t).maximum_players) ∧
    (∀ (o : Oracle) (input : AllocatorInput) (res : RunResult), o.WF →
       (∀ tg ∈ input.tables, tg.2.minimum_players ≤ tg.2.optimal_players ∧
         tg.2.optimal_players ≤ tg.2.maximum_players) →
       (input.tables.map Prod.fst).Nodup →
       allocate o input = .ok res →
       ∀ tg ∈ input.tables, (res.bestAlloc tg.1).length ≤ tg.2.maximum_players) := by
  refine ⟨?_, ?_, ?_⟩
  · intro o lookup orderedPrefs trial k players alloc alloc' k' hWF hcap hres
    exact placeAllPlayers_capacity hWF hcap hres
  · intro o lookup orderedPrefs alloc alloc' ta donors k b k' hWF hcap hmin hmo hom hres
    exact try_make_up_numbers_capacity hWF hcap hmin hmo hom hres
  · intro o input res hWF hord hnd hres tg htg
    have hcoh : ∀ tg ∈ input.tables, lookupTable input.tables tg.1 = tg.2 := by
      intro tg2 htg2
      exact lookupTable_eq hnd htg2
    have := runTrialsAux_capacity hWF hcoh
      (fun tg2 htg2 => hord tg2 htg2) hnd n_trials 1
      (buildOrderedPrefs o 0 input.prefsByPlayer).2 none [] res
      (fun bl ba hba => by cases hba) hres tg.1
    rwa [lookupTable_eq hnd htg] at this

/-- C4 witness: a concrete successful run on two tables of maximum 2
leaves table 1 within its maximum. -/
theorem C4_witness :
    (match allocate idOracle twinInput with
      | .ok res => (res.bestAlloc 1).length ≤ 2
      | .error _ => False) :=
  C4_capacity_ceiling.2.2 idOracle twinInput _ idOracle_wf (by decide)
    (by decide) rfl (1, ⟨0, 2, 2⟩) (by decide)

/-- The bump scan over incumbents cannot raise when every incumbent's loss
at the table is defined. -/
theorem bumpScanPlayers_no_error {o : Oracle} {lookup : Nat → GameInfo}
    {orderedPrefs : Nat → List (List Nat)} {alloc : Alloc} {t ourLoss : Nat}
    {hs : List Nat} (h : ∀ q ∈ hs, lossMapOf (orderedPrefs q) t ≠ none) :
    ∀ k, ∃ r, bumpScanPlayers o lookup orderedPrefs alloc t ourLoss k hs
      = .ok r := by
  induction hs with
  | nil => exact fun k => ⟨(none, k), rfl⟩
  | cons h0 hs ih =>
    intro k
    cases hl : lossMapOf (orderedPrefs h0) t with
    | none => exact absurd hl (h h0 (List.mem_cons_self _ _))
    | some lh =>
      have ih' := ih (fun q hq => h q (List.mem_cons_of_mem _ hq))
      simp only [bumpScanPlayers, hl]
      by_cases hle : ourLoss ≤ lh
      · rw [if_pos hle]
        cases hf : firstTableWithRoom lookup alloc
            (o.permNat k ((orderedPrefs h0).getD lh [])) with
        | some t2 => exact ⟨(some (h0, t2), k + 1), rfl⟩
        | none => exact ih' (k + 1)
      · rw [if_neg hle]
        exact ih' k

/-- The bump scan over tables cannot raise when every seated player's loss
at its own table is defined. -/
theorem bumpScanTables_no_error {o : Oracle} {lookup : Nat → GameInfo}
    {orderedPrefs : Nat → List (List Nat)} {alloc : Alloc} {ourLoss : Nat}
    {ts : List Nat}
    (h : ∀ t ∈ ts, ∀ q ∈ alloc t, lossMapOf (orderedPrefs q) t ≠ none) :
    ∀ k, ∃ r, bumpScanTables o lookup orderedPrefs alloc ourLoss k ts
      = .ok r := by
  induction ts with
  | nil => exact fun k => ⟨(none, k), rfl⟩
  | cons t0 ts ih =>
    intro k
    obtain ⟨⟨opt, k1⟩, hr⟩ :=
      @bumpScanPlayers_no_error o lookup orderedPrefs alloc t0 ourLoss
        (alloc t0) (h t0 (List.mem_cons_self _ _)) k
    have ih' := ih (fun t ht => h t (List.mem_cons_of_mem _ ht))
    simp only [bumpScanTables, hr]
    cases opt with
    | some pair => exact ⟨(some (t0, pair.1, pair.2), k1), rfl⟩
    | none => exact ih' k1

/-- `initial_allocate` cannot raise when every seated player's loss at its
own table is defined (the invariant the driver maintains). -/
theorem initialAllocateAux_no_error {o : Oracle} {lookup : Nat → GameInfo}
    {orderedPrefs : Nat → List (List Nat)} {alloc : Alloc} {player : Nat}
    (h : ∀ q t, q ∈ alloc t → lossMapOf (orderedPrefs q) t ≠ none) :
    ∀ (tiersL : List (List Nat)) (ourLoss k : Nat),
      ∃ r, initialAllocateAux o lookup orderedPrefs player ourLoss k alloc tiersL
        = .ok r := by
  intro tiersL
  induction tiersL with
  | nil => exact fun ourLoss k => ⟨(alloc, false, k), rfl⟩
  | cons tier rest ih =>
    intro ourLoss k
    cases hpol : firstTableWithRoom lookup alloc (politeOrder lookup alloc tier) with
    | some t => exact ⟨(appendAt alloc t player, true, k), by
        simp only [initialAllocateAux, hpol]⟩
    | none =>
      obtain ⟨⟨opt, k1⟩, hb⟩ := @bumpScanTables_no_error o lookup orderedPrefs
        alloc ourLoss (o.permNat k tier) (fun t _ q hq => h q t hq) (k + 1)
      cases opt with
      | some trip =>
        exact ⟨(appendAt (appendAt (removeAt alloc trip.1 trip.2.1) trip.2.2
          trip.2.1) trip.1 player, true, k1), by
          simp only [initialAllocateAux, hpol, hb]⟩
      | none =>
        obtain ⟨r, hr⟩ := ih (ourLoss + 1) k1
        exact ⟨r, by simp only [initialAllocateAux, hpol, hb]; exact hr⟩

/-- A table of one of the tiers lies in the flattened tiers. -/
theorem mem_getD_flatten {l : List (List Nat)} {i x : Nat}
    (h : x ∈ l.getD i []) : x ∈ l.flatten := by
  by_cases hi : i < l.length
  · rw [List.getD_eq_getElem _ _ hi] at h
    exact List.mem_flatten.mpr ⟨_, List.getElem_mem hi, h⟩
  · rw [List.getD_eq_default] at h
    · simp at h
    · omega

/-- Appending one player at a listed table raises the listed loads' sum by
exactly one. -/
theorem sum_lengths_appendAt {tableIds : List Nat} {t : Nat}
    (hnd : tableIds.Nodup) (ht : t ∈ tableIds) (alloc : Alloc) (p : Nat) :
    (tableIds.map (fun s => ((appendAt alloc t p) s).length)).sum
      = (tableIds.map (fun s => (alloc s).length)).sum + 1 := by
  induction tableIds with
  | nil => simp at ht
  | cons s0 rest ih =>
    rw [List.nodup_cons] at hnd
    rw [List.map_cons, List.map_cons, List.sum_cons, List.sum_cons]
    rcases List.mem_cons.mp ht with rfl | ht'
    · rw [appendAt_same, List.length_append]
      have hrest : rest.map (fun s => ((appendAt alloc t p) s).length)
          = rest.map (fun s => (alloc s).length) :=
        List.map_congr_left (fun s hs => by
          rw [appendAt_other (fun hc : s = t => hnd.1 (hc ▸ hs))])
      rw [hrest]
      simp only [List.length_singleton]
      omega
    · have hs0 : s0 ≠ t := fun hc => hnd.1 (hc ▸ ht')
      rw [appendAt_other hs0, ih hnd.2 ht']
      omega

/-- Removing a seated player from a listed table lowers the listed loads'
sum by exactly one. -/
theorem sum_lengths_removeAt {tableIds : List Nat} {t q : Nat}
    (hnd : tableIds.Nodup) (ht : t ∈ tableIds) (alloc : Alloc)
    (hq : q ∈ alloc t) :
    (tableIds.map (fun s => ((removeAt alloc t q) s).length)).sum + 1
      = (tableIds.map (fun s => (alloc s).length)).sum := by
  induction tableIds with
  | nil => simp at ht
  | cons s0 rest ih =>
    rw [List.nodup_cons] at hnd
    rw [List.map_cons, List.map_cons, List.sum_cons, List.sum_cons]
    rcases List.mem_cons.mp ht with rfl | ht'
    · rw [removeAt_same, List.length_erase_of_mem hq]
      have hrest : rest.map (fun s => ((removeAt alloc t q) s).length)
          = rest.map (fun s => (alloc s).length) :=
        List.map_congr_left (fun s hs => by
          rw [removeAt_other (fun hc : s = t => hnd.1 (hc ▸ hs))])
      rw [hrest]
      have : 0 < (alloc t).length := List.length_pos_of_mem hq
      omega
    · have hs0 : s0 ≠ t := fun hc => hnd.1 (hc ▸ ht')
      rw [removeAt_other hs0, ← ih hnd.2 ht']
      omega

/-- The placement loop succeeds whenever every (seated or waiting)
player's tiers cover exactly the listed tables and the players still to
seat fit into the listed tables' remaining joint capacity. -/
theorem placeAll_total {o : Oracle} (hWF : o.WF)
    {lookup : Nat → GameInfo} {orderedPrefs : Nat → List (List Nat)}
    {tableIds : List Nat} (hnd : tableIds.Nodup) :
    ∀ (players : List Nat) (alloc : Alloc) (trial k : Nat),
    (∀ q t, q ∈ alloc t → t ∈ (orderedPrefs q).flatten ∧
      ∀ s, s ∈ (orderedPrefs q).flatten ↔ s ∈ tableIds) →
    (∀ p ∈ players, ∀ s, s ∈ (orderedPrefs p).flatten ↔ s ∈ tableIds) →
    (tableIds.map (fun s => (alloc s).length)).sum + players.length
      ≤ (tableIds.map (fun s => (lookup s).maximum_players)).sum →
    ∃ r, placeAllPlayers o lookup orderedPrefs trial k alloc players
      = .ok r := by
  intro players
  induction players with
  | nil => exact fun alloc trial k _ _ _ => ⟨(alloc, k), rfl⟩
  | cons p ps ih =>
    intro alloc trial k hJ hcov hsum
    have hdef : ∀ q t, q ∈ alloc t → lossMapOf (orderedPrefs q) t ≠ none :=
      fun q t hq hc => (lossMapOf_eq_none.mp hc) (hJ q t hq).1
    obtain ⟨⟨alloc1, success, k1⟩, hstep⟩ :=
      @initialAllocateAux_no_error o lookup orderedPrefs alloc p hdef
        (orderedPrefs p) 0 k
    cases success with
    | false =>
      obtain ⟨rfl, hfull⟩ := initialAllocateAux_ok_false hstep
      have hge : ∀ s ∈ tableIds,
          (lookup s).maximum_players ≤ (alloc1 s).length := by
        intro s hs
        have := hfull s ((hcov p (List.mem_cons_self _ _) s).mpr hs)
        omega
      have hsumge : (tableIds.map (fun s => (lookup s).maximum_players)).sum
          ≤ (tableIds.map (fun s => (alloc1 s).length)).sum :=
        List.sum_le_sum hge
      rw [List.length_cons] at hsum
      omega
    | true =>
      have hmemcov : ∀ alloc2 : Alloc,
          (∀ q t, q ∈ alloc2 t → t ∈ (orderedPrefs q).flatten ∧
            ∀ s, s ∈ (orderedPrefs q).flatten ↔ s ∈ tableIds) →
          (tableIds.map (fun s => (alloc2 s).length)).sum + ps.length
              ≤ (tableIds.map (fun s => (lookup s).maximum_players)).sum →
          ∃ r, placeAllPlayers o lookup orderedPrefs trial k1 alloc2 ps = .ok r :=
        fun alloc2 hJ2 hsum2 => ih alloc2 trial k1 hJ2
          (fun q hq => hcov q (List.mem_cons_of_mem _ hq)) hsum2
      rcases initialAllocateAux_ok_true hWF hstep with
        ⟨t, htf, hroom, rfl⟩ | ⟨t, htf, h0, hh0, lh, t2, hfull, hl, ht2, hroom, rfl⟩
      · -- polite seat at t
        have htIds : t ∈ tableIds := (hcov p (List.mem_cons_self _ _) t).mp htf
        have hJ1 : ∀ q t', q ∈ (appendAt alloc t p) t' →
            t' ∈ (orderedPrefs q).flatten ∧
            ∀ s, s ∈ (orderedPrefs q).flatten ↔ s ∈ tableIds := by
          intro q t' hq
          rcases mem_appendAt.mp hq with hq' | ⟨rfl, rfl⟩
          · exact hJ q t' hq'
          · exact ⟨htf, hcov q (List.mem_cons_self _ _)⟩
        have hsum1 : (tableIds.map
              (fun s => ((appendAt alloc t p) s).length)).sum + ps.length
            ≤ (tableIds.map (fun s => (lookup s).maximum_players)).sum := by
          rw [sum_lengths_appendAt hnd htIds]
          rw [List.length_cons] at hsum
          omega
        obtain ⟨r, hrec⟩ := hmemcov _ hJ1 hsum1
        exact ⟨r, by simp only [placeAllPlayers, initial_allocate, hstep]; exact hrec⟩
      · -- bump h0 from t to t2, seat p at t
        have htIds : t ∈ tableIds := (hcov p (List.mem_cons_self _ _) t).mp htf
        have hflat2 : t2 ∈ (orderedPrefs h0).flatten := mem_getD_flatten ht2
        have ht2Ids : t2 ∈ tableIds := ((hJ h0 t hh0).2 t2).mp hflat2
        have hJ1 : ∀ q t',
            q ∈ (appendAt (appendAt (removeAt alloc t h0) t2 h0) t p) t' →
            t' ∈ (orderedPrefs q).flatten ∧
            ∀ s, s ∈ (orderedPrefs q).flatten ↔ s ∈ tableIds := by
          intro q t' hq
          rcases mem_appendAt.mp hq with hq' | ⟨rfl, rfl⟩
          · rcases mem_appendAt.mp hq' with hq2 | ⟨rfl, rfl⟩
            · exact hJ q t' (mem_removeAt hq2)
            · exact ⟨hflat2, (hJ q t hh0).2⟩
          · exact ⟨htf, hcov q (List.mem_cons_self _ _)⟩
        have hsum1 : (tableIds.map (fun s =>
              ((appendAt (appendAt (removeAt alloc t h0) t2 h0) t p) s).length)).sum
              + ps.length
            ≤ (tableIds.map (fun s => (lookup s).maximum_players)).sum := by
          rw [sum_lengths_appendAt hnd htIds, sum_lengths_appendAt hnd ht2Ids]
          have hrm := sum_lengths_removeAt hnd htIds alloc hh0
          rw [List.length_cons] at hsum
          omega
        obtain ⟨r, hrec⟩ := hmemcov _ hJ1 hsum1
        exact ⟨r, by simp only [placeAllPlayers, initial_allocate, hstep]; exact hrec⟩

/-- C7 counterexample: tables 1 `(1,1,1)` and 2 `(1,1,5)`, two players
whose only preference row is table 1.  Total demand 2 is well below the
total maximum capacity 6, yet InitialPlacement fails on the second
player. -/
theorem C7_counterexample :
    placeAllPlayers idOracle (lookupTable sparseTables) sparsePrefs 1 0
        emptyAlloc [7, 8]
      = .error (.failedToAllocatePlayer 8 1) ∧
    [7, 8].length ≤ (sparseTables.map (fun tg => tg.2.maximum_players)).sum :=
  ⟨rfl, by decide⟩

/-- C7 amended: when every group's tiers cover exactly the slot's sessions
(total preference coverage) and the total group-seat demand is at most the
sum of the sessions' maximum capacities, InitialPlacement places every
group without error.  (Without the coverage premise the implication fails;
the error can also fire for a group whose listed sessions are full while
unlisted sessions still have room.) -/
theorem C7_amended_success_under_coverage {o : Oracle} (hWF : o.WF)
    (lookup : Nat → GameInfo) (orderedPrefs : Nat → List (List Nat))
    (tableIds : List Nat) (players : List Nat) (trial k : Nat)
    (hnd : tableIds.Nodup)
    (hcov : ∀ p ∈ players, ∀ s, s ∈ (orderedPrefs p).flatten ↔ s ∈ tableIds)
    (hcount : players.length
      ≤ (tableIds.map (fun s => (lookup s).maximum_players)).sum) :
    ∃ r, placeAllPlayers o lookup orderedPrefs trial k emptyAlloc players
      = .ok r := by
  refine placeAll_total hWF hnd players emptyAlloc trial k ?_ hcov ?_
  · intro q t hq
    exact absurd hq (by simp [emptyAlloc])
  · have hzero : (tableIds.map (fun s => (emptyAlloc s).length)).sum = 0 :=
      List.sum_eq_zero (fun x hx => by
        obtain ⟨s, _, rfl⟩ := List.mem_map.mp hx
        rfl)
    rw [hzero]
    simpa using hcount

/-- C7 witness: two players with full coverage of two tables of maximum 3
are both placed. -/
theorem C7_witness :
    ∃ r, placeAllPlayers idOracle capLookup capPrefs 1 0 emptyAlloc [4, 5]
      = .ok r :=
  C7_amended_success_under_coverage idOracle_wf capLookup capPrefs [1, 2]
    [4, 5] 1 0 (by decide) (by intro p hp s; unfold capPrefs; simp)
    (by decide)

end ConvergenceGames
